import Mathlib

/-!
Shallow embedding of the SimpleRISCV emulator core (src/main.cpp) in Lean 4.

Conventions of the embedding:
* C++ `int` values are modelled as `Int` normalised into `[-2^31, 2^31)` via `to32`
  (32-bit two's-complement wraparound, as the source relies on throughout).
* C++ `std::string` is modelled as `List Char` (`Str`); `std::vector` as `List`.
* Out-of-bounds `std::vector` indexing (undefined behaviour in the source) is made
  explicit: the execution result type has a dedicated `ub` outcome, so the error
  branch of every total indexing operation is visible in the model.
* The one C++ exception the core can raise (`parseMem`'s `runtime_error`) is
  modelled as an explicit `thrown` outcome that propagates out of `step`,
  exactly as the uncaught exception does in the source.
-/

/-! ### 32-bit two's-complement arithmetic helpers -/

/-- Reinterpret the low 32 bits of an integer as a signed 32-bit value
(the wraparound the C++ code performs on `int` arithmetic). -/
def to32 (x : Int) : Int :=
  (x + 2147483648) % 4294967296 - 2147483648

/-- The low 32 bits of an integer as an unsigned value (C++ cast to `uint32_t`). -/
def toU32N (x : Int) : Nat :=
  (x % 4294967296).toNat

/-- C++ `int & int` (two's-complement bitwise and). -/
def land32 (a b : Int) : Int :=
  to32 ((toU32N a &&& toU32N b : Nat) : Int)

/-- C++ `int | int` (two's-complement bitwise or). -/
def lor32 (a b : Int) : Int :=
  to32 ((toU32N a ||| toU32N b : Nat) : Int)

/-- C++ `int ^ int` (two's-complement bitwise xor). -/
def lxor32 (a b : Int) : Int :=
  to32 ((toU32N a ^^^ toU32N b : Nat) : Int)

/-- C++ `a << sh` on `int` (wrapping shift left). -/
def shl32 (a : Int) (sh : Nat) : Int :=
  to32 (a * (2 ^ sh : Nat))

/-- C++ `(unsigned)a >> sh` followed by conversion back to `int`. -/
def shrl32 (a : Int) (sh : Nat) : Int :=
  to32 ((toU32N a >>> sh : Nat) : Int)

/-- C++ `a >> sh` on `int` (arithmetic shift right = floor division). -/
def sra32 (a : Int) (sh : Nat) : Int :=
  Int.fdiv a ((2 ^ sh : Nat) : Int)

/-- `SimpleRISCV::signExtend12`: `(imm << 20) >> 20` on 32-bit ints. -/
def signExtend12 (imm : Int) : Int :=
  sra32 (shl32 imm 20) 20

/-- `SimpleRISCV::sext8`: `(int)(int8_t)v`. -/
def sext8 (v : Nat) : Int :=
  if v % 256 < 128 then ((v % 256 : Nat) : Int) else ((v % 256 : Nat) : Int) - 256

/-- `SimpleRISCV::sext16`: `(int)(int16_t)v`. -/
def sext16 (v : Nat) : Int :=
  if v % 65536 < 32768 then ((v % 65536 : Nat) : Int) else ((v % 65536 : Nat) : Int) - 65536

/-- `SimpleRISCV::zext8`: `(int)v` for `uint8_t v`. -/
def zext8 (v : Nat) : Int := ((v % 256 : Nat) : Int)

/-- `SimpleRISCV::zext16`: `(int)v` for `uint16_t v`. -/
def zext16 (v : Nat) : Int := ((v % 65536 : Nat) : Int)

/-! ### Characters and strings (modelled as `List Char`) -/

/-- Strings of the C++ source, modelled as lists of characters. -/
abbrev Str := List Char

/-- Convenience coercion from Lean string literals to the `Str` model. -/
def str (s : String) : Str := s.data

/-- The characters trimmed by `SimpleRISCV::trim` (`" \t"`). -/
def isTrimChar (c : Char) : Bool := c = ' ' ∨ c = '\t'

/-- C `isspace` (the whitespace set used by `stoll` skipping and by
`std::istream` token extraction). -/
def isSpaceCpp (c : Char) : Bool :=
  c = ' ' ∨ c = '\t' ∨ c = '\n' ∨ c = '\x0b' ∨ c = '\x0c' ∨ c = '\r'

/-- ASCII `tolower`, as applied by `regNum`. -/
def toLowerCpp (c : Char) : Char :=
  if 'A' ≤ c ∧ c ≤ 'Z' then Char.ofNat (c.toNat + 32) else c

/-- ASCII `toupper`, as applied to opcodes by the loader. -/
def toUpperCpp (c : Char) : Char :=
  if 'a' ≤ c ∧ c ≤ 'z' then Char.ofNat (c.toNat - 32) else c

/-- `SimpleRISCV::trim`: strip leading and trailing spaces and tabs. -/
def trim (s : Str) : Str :=
  ((s.dropWhile isTrimChar).reverse.dropWhile isTrimChar).reverse

def isDigitCpp (c : Char) : Bool := '0' ≤ c ∧ c ≤ '9'

def isHexDigitCpp (c : Char) : Bool :=
  ('0' ≤ c ∧ c ≤ '9') ∨ ('a' ≤ c ∧ c ≤ 'f') ∨ ('A' ≤ c ∧ c ≤ 'F')

def digitVal (c : Char) : Nat := c.toNat - 48

def hexVal (c : Char) : Nat :=
  if '0' ≤ c ∧ c ≤ '9' then c.toNat - 48
  else if 'a' ≤ c ∧ c ≤ 'f' then c.toNat - 87
  else c.toNat - 55

/-- Value of a list of decimal digits (most significant first). -/
def decValue (ds : Str) : Nat :=
  ds.foldl (fun a c => a * 10 + digitVal c) 0

/-- Value of a list of hex digits (most significant first). -/
def hexValue (ds : Str) : Nat :=
  ds.foldl (fun a c => a * 16 + hexVal c) 0

/-- Model of `std::stoll(s, nullptr, 10)`: skip whitespace, optional sign,
then a maximal non-empty run of decimal digits.  `none` models a thrown
`invalid_argument` (no digits) or `out_of_range` (value outside `int64`). -/
def stoll10 (s : Str) : Option Int :=
  let s1 := s.dropWhile isSpaceCpp
  let sign : Int := if s1.getD 0 ' ' = '-' then -1 else 1
  let s2 : Str := if s1.getD 0 ' ' = '-' ∨ s1.getD 0 ' ' = '+' then s1.drop 1 else s1
  let digs := s2.takeWhile isDigitCpp
  if digs = [] then none
  else
    let v : Int := sign * ((decValue digs : Nat) : Int)
    if -9223372036854775808 ≤ v ∧ v ≤ 9223372036854775807 then some v else none

/-- Model of `std::stoll(s, nullptr, 16)`: skip whitespace, optional sign,
optional `0x`/`0X` prefix (only when followed by a hex digit), then a maximal
non-empty run of hex digits. -/
def stoll16 (s : Str) : Option Int :=
  let s1 := s.dropWhile isSpaceCpp
  let sign : Int := if s1.getD 0 ' ' = '-' then -1 else 1
  let s2 : Str := if s1.getD 0 ' ' = '-' ∨ s1.getD 0 ' ' = '+' then s1.drop 1 else s1
  let s3 : Str := if 2 ≤ s2.length ∧ s2.getD 0 ' ' = '0' ∧
      (s2.getD 1 ' ' = 'x' ∨ s2.getD 1 ' ' = 'X') ∧ isHexDigitCpp (s2.getD 2 ' ') = true then
    s2.drop 2
  else s2
  let digs := s3.takeWhile isHexDigitCpp
  if digs = [] then none
  else
    let v : Int := sign * ((hexValue digs : Nat) : Int)
    if -9223372036854775808 ≤ v ∧ v ≤ 9223372036854775807 then some v else none

/-- `SimpleRISCV::parseNumber`: trim, recognise hex / negative hex / decimal,
convert via 64-bit parse wrapped to 32 bits; any parse failure yields 0
(with a diagnostic on the side channel). -/
def parseNumber (numStr : Str) : Int :=
  let s := trim numStr
  if s = [] then 0
  else if 2 < s.length ∧ s.getD 0 ' ' = '0' ∧ (s.getD 1 ' ' = 'x' ∨ s.getD 1 ' ' = 'X') then
    match stoll16 s with
    | some v => to32 v
    | none => 0
  else if 3 < s.length ∧ s.getD 0 ' ' = '-' ∧ s.getD 1 ' ' = '0' ∧
      (s.getD 2 ' ' = 'x' ∨ s.getD 2 ' ' = 'X') then
    match stoll16 (s.drop 1) with
    | some v => to32 (-v)
    | none => 0
  else
    match stoll10 s with
    | some v => to32 v
    | none => 0

/-! ### Register name resolution -/

/-- The fixed ABI register alias table (`ABI_REG_MAP`). -/
def ABI_REG_MAP : List (Str × Int) :=
  [ (str "zero", 0), (str "ra", 1), (str "sp", 2), (str "gp", 3), (str "tp", 4),
    (str "t0", 5), (str "t1", 6), (str "t2", 7), (str "t3", 28), (str "t4", 29),
    (str "t5", 30), (str "t6", 31),
    (str "s0", 8), (str "s1", 9), (str "s2", 18), (str "s3", 19), (str "s4", 20),
    (str "s5", 21), (str "s6", 22), (str "s7", 23), (str "s8", 24), (str "s9", 25),
    (str "s10", 26), (str "s11", 27),
    (str "a0", 10), (str "a1", 11), (str "a2", 12), (str "a3", 13), (str "a4", 14),
    (str "a5", 15), (str "a6", 16), (str "a7", 17) ]

/-- Association-list lookup modelling `unordered_map::find` (all keys distinct). -/
def assocLookup (l : List (Str × Int)) (k : Str) : Option Int :=
  match l with
  | [] => none
  | (k0, v0) :: r => if k0 = k then some v0 else assocLookup r k

/-- `SimpleRISCV::regNum`: lowercase the token; `x`-prefixed tokens are parsed
with `parseNumber` (note: `parseNumber` never throws, so the `catch` branch in
the source is unreachable and no range check is applied); otherwise the ABI
table is consulted, defaulting to 0. -/
def regNum (s : Str) : Int :=
  let name := s.map toLowerCpp
  if name ≠ [] ∧ name.getD 0 ' ' = 'x' then
    parseNumber (name.drop 1)
  else
    match assocLookup ABI_REG_MAP name with
    | some idx => idx
    | none => 0

/-! ### `std::to_string` model (used by the LI/MV pseudo expansion) -/

def digitChar (n : Nat) : Char := Char.ofNat (48 + n)

/-- Decimal digits of `n`, most significant first; fuel-driven so the kernel
can evaluate it (fuel `n + 1` always suffices). -/
def natDigitsAux : Nat → Nat → Str
  | 0, _ => []
  | fuel + 1, n =>
    if n < 10 then [digitChar n]
    else natDigitsAux fuel (n / 10) ++ [digitChar (n % 10)]

/-- `std::to_string` on a (32-bit) integer. -/
def to_string (i : Int) : Str :=
  if i < 0 then '-' :: natDigitsAux ((-i).toNat + 1) (-i).toNat
  else natDigitsAux (i.toNat + 1) i.toNat

/-! ### Instruction and machine state -/

/-- `struct Instruction`: opcode tag, raw operand tokens, source-line back-reference. -/
structure Instruction where
  op : Str
  args : List Str
  sourceLine : Int
deriving DecidableEq, Repr

instance : Inhabited Instruction := ⟨⟨[], [], -1⟩⟩

/-- The label table (`unordered_map<string,int>`), as an association list with
update-or-insert assignment. -/
abbrev Labels := List (Str × Int)

/-- `labels[k] = v` on an `unordered_map`: replace if present, insert otherwise. -/
def setLabel : Labels → Str → Int → Labels
  | [], k, v => [(k, v)]
  | (k0, v0) :: r, k, v =>
    if k0 = k then (k0, v) :: r else (k0, v0) :: setLabel r k v

/-- `labels.count(k) != 0`. -/
def hasLabel (ls : Labels) (k : Str) : Bool :=
  (assocLookup ls k).isSome

/-- `labels[k]` for lookup (guarded by `hasLabel` in the source paths we model). -/
def getLabel (ls : Labels) (k : Str) : Int :=
  (assocLookup ls k).getD 0

/-- The architectural state plus program of `class SimpleRISCV`. -/
structure Machine where
  reg : List Int
  memory : List Nat
  labels : Labels
  program : List Instruction
  pc : Int
deriving DecidableEq, Repr

/-- The construction state: 32 zeroed registers except `sp = memory.size()` and
`gp = memory.size() / 2`, 4096 zeroed memory bytes, pc 0, no program. -/
def initMachine : Machine :=
  let memory : List Nat := List.replicate 4096 0
  { reg := (((List.replicate 32 (0 : Int)).set 2 (memory.length : Int)).set 3
      ((memory.length : Int) / 2))
    memory := memory
    labels := []
    program := []
    pc := 0 }

/-- Observing register `i` (out-of-range observation yields the `getD` default 0;
in-range reads match the C++ vector). -/
def regGet (m : Machine) (i : Nat) : Int := m.reg.getD i 0

/-- The `reg[0] = 0` enforcement at the top and tail of `step`. -/
def setReg0 (m : Machine) : Machine := { m with reg := m.reg.set 0 0 }

/-! ### Memory access layer -/

/-- `SimpleRISCV::validAddrByte`: `0 <= addr < memory.size()` (else diagnostic). -/
def validAddrByte (m : Machine) (addr : Int) : Bool :=
  decide (0 ≤ addr ∧ addr < (m.memory.length : Int))

/-- `SimpleRISCV::checkAligned`: `addr % align == 0` under C++ truncated `%`. -/
def checkAligned (addr : Int) (align : Int) : Bool :=
  decide (addr.tmod align = 0)

/-- `SimpleRISCV::load8` (revalidates; invalid yields 0). -/
def load8 (m : Machine) (addr : Int) : Nat :=
  if validAddrByte m addr then m.memory.getD addr.toNat 0 else 0

/-- `SimpleRISCV::load16`, little-endian. -/
def load16 (m : Machine) (addr : Int) : Nat :=
  if validAddrByte m addr ∧ validAddrByte m (addr + 1) then
    m.memory.getD addr.toNat 0 ||| (m.memory.getD (addr + 1).toNat 0 <<< 8)
  else 0

/-- `SimpleRISCV::load32`, little-endian. -/
def load32 (m : Machine) (addr : Int) : Nat :=
  if validAddrByte m addr ∧ validAddrByte m (addr + 3) then
    m.memory.getD addr.toNat 0 |||
      (m.memory.getD (addr + 1).toNat 0 <<< 8) |||
      (m.memory.getD (addr + 2).toNat 0 <<< 16) |||
      (m.memory.getD (addr + 3).toNat 0 <<< 24)
  else 0

/-- `SimpleRISCV::store8` (suppressed when out of bounds). -/
def store8 (m : Machine) (addr : Int) (v : Nat) : Machine :=
  if validAddrByte m addr then
    { m with memory := m.memory.set addr.toNat (v % 256) }
  else m

/-- `SimpleRISCV::store16`, little-endian. -/
def store16 (m : Machine) (addr : Int) (v : Nat) : Machine :=
  if validAddrByte m addr ∧ validAddrByte m (addr + 1) then
    { m with memory :=
        ((m.memory.set addr.toNat (v &&& 255)).set (addr + 1).toNat ((v >>> 8) &&& 255)) }
  else m

/-- `SimpleRISCV::store32`, little-endian. -/
def store32 (m : Machine) (addr : Int) (v : Nat) : Machine :=
  if validAddrByte m addr ∧ validAddrByte m (addr + 3) then
    { m with memory :=
        ((((m.memory.set addr.toNat (v &&& 255)).set
            (addr + 1).toNat ((v >>> 8) &&& 255)).set
            (addr + 2).toNat ((v >>> 16) &&& 255)).set
            (addr + 3).toNat ((v >>> 24) &&& 255)) }
  else m

/-! ### Operand parsing at execution time -/

/-- `SimpleRISCV::parseMem`: split `IMM(REG)`. `none` models the thrown
`runtime_error` when either parenthesis is missing.  The `substr` count
clamping of C++ is reproduced for the degenerate `)..(` ordering. -/
def parseMem (s : Str) : Option (Int × Int) :=
  match s.findIdx? (· = '('), s.findIdx? (· = ')') with
  | some lparen, some rparen =>
    let immStr := s.take lparen
    let rsStr := if lparen < rparen then (s.drop (lparen + 1)).take (rparen - lparen - 1)
      else s.drop (lparen + 1)
    some (parseNumber immStr, regNum rsStr)
  | _, _ => none

/-! ### Execution results

`ExecRes` is the outcome of the dispatch body of `step` (before the common
tail `reg[0] = 0; pc += 4; return true`):
* `ok m` — the branch fell through to the common tail;
* `ret c m` — the branch executed `return c`;
* `thrown m` — a C++ exception escaped (state `m` at the throw point);
* `ub` — an out-of-bounds `std::vector` access (undefined behaviour in C++). -/

inductive ExecRes where
  | ok (m : Machine)
  | ret (cont : Bool) (m : Machine)
  | thrown (m : Machine)
  | ub
deriving DecidableEq, Repr

/-- Result of one `step()` call. -/
inductive StepResult where
  | ok (cont : Bool) (m : Machine)
  | thrown (m : Machine)
  | ub
deriving DecidableEq, Repr

/-- Access `ins.args[i]` (C++ `vector::operator[]`, out of bounds = UB). -/
def withArg (ins : Instruction) (i : Nat) (k : Str → ExecRes) : ExecRes :=
  match ins.args[i]? with
  | some a => k a
  | none => .ub

/-- Read `reg[i]` (out of bounds = UB). -/
def withReg (m : Machine) (i : Int) (k : Int → ExecRes) : ExecRes :=
  if 0 ≤ i ∧ i < (m.reg.length : Int) then k (m.reg.getD i.toNat 0) else .ub

/-- `SimpleRISCV::writeReg`: writes to register 0 are discarded; other indices
are a raw vector write (out of bounds = UB). -/
def writeReg (m : Machine) (rd : Int) (v : Int) (k : Machine → ExecRes) : ExecRes :=
  if rd = 0 then k m
  else if 0 ≤ rd ∧ rd < (m.reg.length : Int) then
    k { m with reg := m.reg.set rd.toNat v }
  else .ub

/-- `SimpleRISCV::alu3`: `writeReg(rd, fn(reg[rs1], reg[rs2]))`. -/
def alu3 (m : Machine) (ins : Instruction) (fn : Int → Int → Int) : ExecRes :=
  withArg ins 0 fun a0 =>
  withArg ins 1 fun a1 =>
  withArg ins 2 fun a2 =>
  withReg m (regNum a1) fun v1 =>
  withReg m (regNum a2) fun v2 =>
  writeReg m (regNum a0) (fn v1 v2) fun m2 => .ok m2

/-- `SimpleRISCV::aluI`: `writeReg(rd, fn(reg[rs1], signExtend12(parseNumber(args[2]))))`. -/
def aluI (m : Machine) (ins : Instruction) (fn : Int → Int → Int) : ExecRes :=
  withArg ins 0 fun a0 =>
  withArg ins 1 fun a1 =>
  withArg ins 2 fun a2 =>
  withReg m (regNum a1) fun v1 =>
  writeReg m (regNum a0) (fn v1 (signExtend12 (parseNumber a2))) fun m2 => .ok m2

/-- The load family branch of `step` (`LB LBU LH LHU LW`). -/
def execLoad (m : Machine) (ins : Instruction) : ExecRes :=
  withArg ins 0 fun a0 =>
  withArg ins 1 fun a1 =>
  match parseMem a1 with
  | none => .thrown m
  | some (imm0, rs1) =>
    let imm := signExtend12 imm0
    withReg m rs1 fun v1 =>
    let addr := to32 (v1 + imm)
    if ins.op = str "LB" then
      if validAddrByte m addr then
        writeReg m (regNum a0) (sext8 (load8 m addr)) fun m2 => .ok m2
      else .ret false m
    else if ins.op = str "LBU" then
      if validAddrByte m addr then
        writeReg m (regNum a0) (zext8 (load8 m addr)) fun m2 => .ok m2
      else .ret false m
    else if ins.op = str "LH" then
      if checkAligned addr 2 ∧ validAddrByte m (addr + 1) then
        writeReg m (regNum a0) (sext16 (load16 m addr)) fun m2 => .ok m2
      else .ret false m
    else if ins.op = str "LHU" then
      if checkAligned addr 2 ∧ validAddrByte m (addr + 1) then
        writeReg m (regNum a0) (zext16 (load16 m addr)) fun m2 => .ok m2
      else .ret false m
    else
      if checkAligned addr 4 ∧ validAddrByte m (addr + 3) then
        writeReg m (regNum a0) (to32 ((load32 m addr : Nat) : Int)) fun m2 => .ok m2
      else .ret false m

/-- The store family branch of `step` (`SB SH SW`). -/
def execStore (m : Machine) (ins : Instruction) : ExecRes :=
  withArg ins 0 fun a0 =>
  withArg ins 1 fun a1 =>
  match parseMem a1 with
  | none => .thrown m
  | some (imm0, rs1) =>
    let imm := signExtend12 imm0
    withReg m rs1 fun v1 =>
    let addr := to32 (v1 + imm)
    if ins.op = str "SB" then
      if validAddrByte m addr then
        withReg m (regNum a0) fun v2 => .ok (store8 m addr (toU32N v2 &&& 255))
      else .ret false m
    else if ins.op = str "SH" then
      if checkAligned addr 2 ∧ validAddrByte m (addr + 1) then
        withReg m (regNum a0) fun v2 => .ok (store16 m addr (toU32N v2 &&& 65535))
      else .ret false m
    else
      if checkAligned addr 4 ∧ validAddrByte m (addr + 3) then
        withReg m (regNum a0) fun v2 => .ok (store32 m addr (toU32N v2))
      else .ret false m

/-- The branch family of `step` (`BEQ BNE BLT BGE BLTU BGEU`). -/
def execBranch (m : Machine) (ins : Instruction) : ExecRes :=
  withArg ins 0 fun a0 =>
  withArg ins 1 fun a1 =>
  withArg ins 2 fun t =>
  let offset : Int :=
    if hasLabel m.labels t then getLabel m.labels t - m.pc
    else signExtend12 (parseNumber t)
  withReg m (regNum a0) fun v1 =>
  withReg m (regNum a1) fun v2 =>
  let take : Bool :=
    if ins.op = str "BEQ" then decide (v1 = v2)
    else if ins.op = str "BNE" then decide (v1 ≠ v2)
    else if ins.op = str "BLT" then decide (v1 < v2)
    else if ins.op = str "BGE" then decide (v2 ≤ v1)
    else if ins.op = str "BLTU" then decide (toU32N v1 < toU32N v2)
    else decide (toU32N v2 ≤ toU32N v1)
  if take then .ret true { m with pc := to32 (m.pc + offset) }
  else .ok m

/-- The `LA` branch of `step` (resolved at execution time). -/
def execLA (m : Machine) (ins : Instruction) : ExecRes :=
  withArg ins 0 fun a0 =>
  withArg ins 1 fun label =>
  if hasLabel m.labels label then
    writeReg m (regNum a0)
      (to32 (shl32 (sra32 (to32 (getLabel m.labels label + 2048)) 12) 12 +
        (if land32 (land32 (getLabel m.labels label) 4095) 2048 ≠ 0 then
          land32 (getLabel m.labels label) 4095 - 4096
        else land32 (getLabel m.labels label) 4095))) fun m2 =>
      .ret true { m2 with pc := to32 (m2.pc + 4) }
  else .ret true { m with pc := to32 (m.pc + 4) }

/-- The `JAL` branch of `step`. -/
def execJAL (m : Machine) (ins : Instruction) : ExecRes :=
  withArg ins 0 fun a0 =>
  withArg ins 1 fun label =>
  writeReg m (regNum a0) (to32 (m.pc + 4)) fun m2 =>
  if hasLabel m2.labels label then .ret true { m2 with pc := getLabel m2.labels label }
  else
    -- `parseNumber` never throws, so the catch-all fallback in the source
    -- (diagnostic + `pc += 4`) is unreachable.
    .ret true { m2 with pc := to32 (m2.pc + parseNumber label) }

/-- The `JALR` branch of `step`. -/
def execJALR (m : Machine) (ins : Instruction) : ExecRes :=
  withArg ins 0 fun a0 =>
  withArg ins 1 fun a1 =>
  match parseMem a1 with
  | none => .thrown m
  | some (imm0, rs1) =>
    writeReg m (regNum a0) (to32 (m.pc + 4)) fun m2 =>
    withReg m2 rs1 fun v1 =>
      .ret true { m2 with pc := land32 (to32 (v1 + signExtend12 imm0)) (-2) }

/-- The `LUI` branch of `step`. -/
def execLUI (m : Machine) (ins : Instruction) : ExecRes :=
  withArg ins 0 fun a0 =>
  withArg ins 1 fun a1 =>
  writeReg m (regNum a0) (shl32 (parseNumber a1) 12) fun m2 => .ok m2

/-- The `AUIPC` branch of `step`. -/
def execAUIPC (m : Machine) (ins : Instruction) : ExecRes :=
  withArg ins 0 fun a0 =>
  withArg ins 1 fun a1 =>
  writeReg m (regNum a0) (to32 (m.pc + shl32 (parseNumber a1) 12)) fun m2 => .ok m2

/-- The dispatch body of `step` (everything between the fetch and the common
`reg[0] = 0; pc += 4; return true` tail), faithful to the `if`/`else if`
chain of the source. -/
def execInst (m : Machine) (ins : Instruction) : ExecRes :=
  if ins.op = str "LA" then execLA m ins
  else if ins.op = str "ADD" then alu3 m ins (fun a b => to32 (a + b))
  else if ins.op = str "ADDI" then aluI m ins (fun a b => to32 (a + b))
  else if ins.op = str "SUB" then alu3 m ins (fun a b => to32 (a - b))
  else if ins.op = str "MUL" then alu3 m ins (fun a b => to32 (a * b))
  else if ins.op = str "DIV" then alu3 m ins (fun a b => if b ≠ 0 then to32 (a.tdiv b) else 0)
  else if ins.op = str "REM" then alu3 m ins (fun a b => if b ≠ 0 then to32 (a.tmod b) else 0)
  else if ins.op = str "AND" then alu3 m ins (fun a b => land32 a b)
  else if ins.op = str "OR" then alu3 m ins (fun a b => lor32 a b)
  else if ins.op = str "XOR" then alu3 m ins (fun a b => lxor32 a b)
  else if ins.op = str "SLL" then alu3 m ins (fun a b => shl32 a (toU32N b &&& 31))
  else if ins.op = str "SRL" then alu3 m ins (fun a b => shrl32 a (toU32N b &&& 31))
  else if ins.op = str "SRA" then alu3 m ins (fun a b => sra32 a (toU32N b &&& 31))
  else if ins.op = str "SLT" then alu3 m ins (fun a b => if a < b then 1 else 0)
  else if ins.op = str "SLLI" then aluI m ins (fun a sh => shl32 a (toU32N sh &&& 31))
  else if ins.op = str "SRLI" then aluI m ins (fun a sh => shrl32 a (toU32N sh &&& 31))
  else if ins.op = str "SRAI" then aluI m ins (fun a sh => sra32 a (toU32N sh &&& 31))
  else if ins.op = str "SLTU" then alu3 m ins (fun a b => if toU32N a < toU32N b then 1 else 0)
  else if ins.op = str "SLTI" then aluI m ins (fun a b => if a < b then 1 else 0)
  else if ins.op = str "SLTIU" then aluI m ins (fun a b => if toU32N a < toU32N b then 1 else 0)
  else if ins.op = str "XORI" then aluI m ins (fun a b => lxor32 a b)
  else if ins.op = str "ORI" then aluI m ins (fun a b => lor32 a b)
  else if ins.op = str "ANDI" then aluI m ins (fun a b => land32 a b)
  else if ins.op = str "LB" ∨ ins.op = str "LBU" ∨ ins.op = str "LH" ∨
      ins.op = str "LHU" ∨ ins.op = str "LW" then execLoad m ins
  else if ins.op = str "SB" ∨ ins.op = str "SH" ∨ ins.op = str "SW" then execStore m ins
  else if ins.op = str "BEQ" ∨ ins.op = str "BNE" ∨ ins.op = str "BLT" ∨
      ins.op = str "BGE" ∨ ins.op = str "BLTU" ∨ ins.op = str "BGEU" then execBranch m ins
  else if ins.op = str "JAL" then execJAL m ins
  else if ins.op = str "JALR" then execJALR m ins
  else if ins.op = str "LUI" then execLUI m ins
  else if ins.op = str "AUIPC" then execAUIPC m ins
  else if ins.op = str "ECALL" then .ret false m
  else .ok m

/-- `SimpleRISCV::step`: enforce `reg[0] = 0`, halt on out-of-range PC,
dispatch, then apply the common tail to fall-through branches. -/
def step (m0 : Machine) : StepResult :=
  if m0.pc.tdiv 4 < 0 ∨ (m0.program.length : Int) ≤ m0.pc.tdiv 4 then .ok false (setReg0 m0)
  else
    match execInst (setReg0 m0) (m0.program.getD (m0.pc.tdiv 4).toNat default) with
    | .ok m2 => .ok true { setReg0 m2 with pc := to32 (m2.pc + 4) }
    | .ret c m2 => .ok c m2
    | .thrown m2 => .thrown m2
    | .ub => .ub

/-- The machine component of a step result (used to observe states after
steps; for the UB outcome there is no defined state, the argument is kept). -/
def afterStep (m : Machine) : Machine :=
  match step m with
  | .ok _ m2 => m2
  | .thrown m2 => m2
  | .ub => m

/-! ### Program loading -/

/-- `std::istream >> token`: skip whitespace, then a maximal non-whitespace run;
returns the token and the remaining stream contents. -/
def extractToken (s : Str) : Str × Str :=
  let s1 := s.dropWhile isSpaceCpp
  (s1.takeWhile (fun c => ¬ isSpaceCpp c), s1.dropWhile (fun c => ¬ isSpaceCpp c))

/-- Repeated `>>` extraction (the operand tokenization loop). -/
def splitWSAux : Str → Str → List Str
  | [], acc => if acc = [] then [] else [acc.reverse]
  | c :: r, acc =>
    if isSpaceCpp c then
      if acc = [] then splitWSAux r [] else acc.reverse :: splitWSAux r []
    else splitWSAux r (c :: acc)

/-- Split a string into whitespace-separated tokens. -/
def splitWS (s : Str) : List Str := splitWSAux s []

/-- The label-stripping loop of `loadProgram` (fuel-driven; fuel
`line.length + 1` always suffices since the line strictly shrinks). -/
def stripLabelsAux : Nat → Nat → Labels → Str → Labels × Str
  | 0, _, labs, line => (labs, line)
  | fuel + 1, progLen, labs, line =>
    match line.findIdx? (· = ':') with
    | none => (labs, line)
    | some pos =>
      let label := trim (line.take pos)
      let labs2 := if label ≠ [] then setLabel labs label ((progLen : Int) * 4) else labs
      let line2 := if pos + 1 < line.length then line.drop (pos + 1) else []
      stripLabelsAux fuel progLen labs2 (trim line2)

/-- `SimpleRISCV::expandPseudo`. -/
def expandPseudo (instIn : Instruction) : List Instruction :=
  let op := instIn.op.map toUpperCpp
  if op = str "MV" ∧ instIn.args.length = 2 then
    [⟨str "ADDI", [instIn.args.getD 0 [], instIn.args.getD 1 [], str "0"], instIn.sourceLine⟩]
  else if op = str "LI" ∧ instIn.args.length = 2 then
    let rd := instIn.args.getD 0 []
    let imm := parseNumber (instIn.args.getD 1 [])
    if -2048 ≤ imm ∧ imm ≤ 2047 then
      [⟨str "ADDI", [rd, str "x0", to_string imm], instIn.sourceLine⟩]
    else
      let uimm := toU32N imm
      let upper : Int := ((((uimm + 2048) % 4294967296) >>> 12 : Nat) : Int)
      let lower0 : Nat := uimm &&& 4095
      let lower : Int := if lower0 &&& 2048 ≠ 0 then (lower0 : Int) - 4096 else (lower0 : Int)
      [⟨str "LUI", [rd, to_string upper], instIn.sourceLine⟩,
       ⟨str "ADDI", [rd, rd, to_string lower], instIn.sourceLine⟩]
  else if op = str "LA" ∧ instIn.args.length = 2 then
    [⟨str "LA", [instIn.args.getD 0 [], instIn.args.getD 1 []], instIn.sourceLine⟩]
  else if op = str "J" ∧ instIn.args.length = 1 then
    [⟨str "JAL", [str "x0", instIn.args.getD 0 []], instIn.sourceLine⟩]
  else if op = str "JR" ∧ instIn.args.length = 1 then
    [⟨str "JALR", [str "x0", str "0(" ++ instIn.args.getD 0 [] ++ str ")"], instIn.sourceLine⟩]
  else if op = str "RET" then
    [⟨str "JALR", [str "x0", str "0(x1)"], instIn.sourceLine⟩]
  else [instIn]

/-- Processing of one source line by `loadProgram`. -/
def processLine (idx : Nat) (rawLine : Str) (prog : List Instruction) (labs : Labels) :
    List Instruction × Labels :=
  let line := trim rawLine
  if line = [] ∨ line.getD 0 ' ' = '#' then (prog, labs)
  else
    let line := match line.findIdx? (· = '#') with
      | some commentPos => trim (line.take commentPos)
      | none => line
    if line = [] then (prog, labs)
    else
      let ll := stripLabelsAux (line.length + 1) prog.length labs line
      if ll.2 = [] then (prog, ll.1)
      else
        let tr := extractToken ll.2
        let op := tr.1.map toUpperCpp
        let argsPart := trim tr.2
        let argsPart := argsPart.map (fun c => if c = ',' then ' ' else c)
        let args := splitWS argsPart
        let inst : Instruction := ⟨op, args, (idx : Int)⟩
        let seq := expandPseudo inst
        (prog ++ seq.map (fun e => { e with sourceLine := inst.sourceLine }), ll.1)

/-- The line loop of `loadProgram`. -/
def processLines : Nat → List Str → List Instruction → Labels → List Instruction × Labels
  | _, [], prog, labs => (prog, labs)
  | idx, l :: rest, prog, labs =>
    let pl := processLine idx l prog labs
    processLines (idx + 1) rest pl.1 pl.2

/-- `SimpleRISCV::loadProgram`: clear program, labels and PC, then process the
lines.  Registers and memory are not touched. -/
def loadProgram (m : Machine) (lines : List Str) : Machine :=
  let pl := processLines 0 lines [] []
  { m with program := pl.1, labels := pl.2, pc := 0 }

/-- The `getline`-driven line splitting of the host binding `jsLoadProgram`. -/
def splitNLAux : Str → Str → List Str
  | [], acc => if acc = [] then [] else [acc.reverse]
  | c :: r, acc => if c = '\n' then acc.reverse :: splitNLAux r [] else splitNLAux r (c :: acc)

/-- Split source text into lines as `jsLoadProgram` does. -/
def getLines (src : Str) : List Str := splitNLAux src []

/-- The host binding `jsLoadProgram`: construct a fresh emulator, then load. -/
def jsLoadProgram (src : Str) : Machine :=
  loadProgram initMachine (getLines src)

/-! ### Basic list lemmas used throughout -/

theorem getD_set_ne {α : Type} : ∀ (l : List α) (n m : Nat) (a d : α), n ≠ m →
    (l.set n a).getD m d = l.getD m d
  | [], _, _, _, _, _ => rfl
  | _ :: _, 0, 0, _, _, h => absurd rfl h
  | _ :: _, 0, _ + 1, _, _, _ => rfl
  | _ :: _, _ + 1, 0, _, _, _ => rfl
  | _ :: l, n + 1, m + 1, a, d, h =>
    getD_set_ne l n m a d (fun hnm => h (by omega))

theorem getD_set_self {α : Type} : ∀ (l : List α) (n : Nat) (a d : α), n < l.length →
    (l.set n a).getD n d = a
  | [], _, _, _, h => absurd h (by simp)
  | _ :: _, 0, _, _, _ => rfl
  | _ :: l, n + 1, a, d, h => getD_set_self l n a d (by simpa using h)

theorem getD_replicate {α : Type} : ∀ (n i : Nat) (x : α),
    (List.replicate n x).getD i x = x
  | 0, _, _ => rfl
  | _ + 1, 0, _ => rfl
  | n + 1, i + 1, x => getD_replicate n i x

theorem length_set_list {α : Type} (l : List α) (n : Nat) (a : α) :
    (l.set n a).length = l.length := by
  simp

/-! ### Elementary facts about the numeric helpers -/

theorem to32_range (x : Int) : -2147483648 ≤ to32 x ∧ to32 x < 2147483648 := by
  unfold to32
  omega

theorem to32_eq_self {x : Int} (h1 : -2147483648 ≤ x) (h2 : x < 2147483648) : to32 x = x := by
  unfold to32
  omega

theorem to32_add_left (a b : Int) : to32 (to32 a + b) = to32 (a + b) := by
  unfold to32
  omega

theorem toU32N_to32 (x : Int) : toU32N (to32 x) = toU32N x := by
  unfold toU32N to32
  omega

theorem toU32N_lt (x : Int) : toU32N x < 4294967296 := by
  unfold toU32N
  omega

theorem to32_toU32N (x : Int) (h1 : -2147483648 ≤ x) (h2 : x < 2147483648) :
    to32 ((toU32N x : Nat) : Int) = x := by
  unfold to32 toU32N
  omega

/-- `signExtend12` in closed arithmetic form: the low 12 bits, sign-extended. -/
theorem signExtend12_eq (imm : Int) :
    signExtend12 imm = imm % 4096 - (if 2048 ≤ imm % 4096 then 4096 else 0) := by
  unfold signExtend12 sra32 shl32 to32
  have h20 : ((2 ^ 20 : Nat) : Int) = 1048576 := by norm_num
  rw [h20]
  split_ifs with h
  · have h2 : (imm * 1048576 + 2147483648) % 4294967296 - 2147483648
        = (imm % 4096 - 4096) * 1048576 := by omega
    rw [h2, Int.mul_fdiv_cancel _ (by norm_num)]
  · have h2 : (imm * 1048576 + 2147483648) % 4294967296 - 2147483648
        = (imm % 4096) * 1048576 := by omega
    rw [h2, Int.mul_fdiv_cancel _ (by norm_num)]
    omega

theorem signExtend12_range (imm : Int) :
    -2048 ≤ signExtend12 imm ∧ signExtend12 imm ≤ 2047 := by
  rw [signExtend12_eq]
  split_ifs <;> omega

theorem signExtend12_eq_self {imm : Int} (h1 : -2048 ≤ imm) (h2 : imm ≤ 2047) :
    signExtend12 imm = imm := by
  rw [signExtend12_eq]
  split_ifs <;> omega

theorem tmod_eq_zero_iff_emod (x n : Int) : x.tmod n = 0 ↔ x % n = 0 := by
  constructor
  · intro h
    exact Int.emod_eq_zero_of_dvd (Int.dvd_of_tmod_eq_zero h)
  · intro h
    exact Int.tmod_eq_zero_of_dvd (Int.dvd_of_emod_eq_zero h)

/-- Bitwise or of values with disjoint bit ranges is addition. -/
theorem lor_eq_add_of_lt : ∀ (k x y : Nat), x < 2 ^ k → x ||| (y * 2 ^ k) = x + y * 2 ^ k := by
  intro k
  induction k with
  | zero =>
    intro x y hx
    have hx0 : x = 0 := by omega
    subst hx0
    simp
  | succ k ih =>
    intro x y hx
    have h21 : y * 2 ^ (k + 1) = 2 * (y * 2 ^ k) := by ring
    have hpow : (2 : Nat) ^ (k + 1) = 2 * 2 ^ k := by ring
    have hdiv : (x ||| y * 2 ^ (k + 1)) / 2 = (x / 2) ||| (y * 2 ^ k) := by
      rw [Nat.or_div_two, h21, Nat.mul_div_cancel_left _ (by norm_num : (0 : Nat) < 2)]
    have hb0 : (y * 2 ^ (k + 1)) % 2 = 0 := by
      rw [h21]
      exact Nat.mul_mod_right 2 _
    have hmod : (x ||| y * 2 ^ (k + 1)) % 2 = x % 2 := by
      obtain ⟨hmp, hmpr⟩ :=
        (@Nat.or_mod_two_eq_one x (y * 2 ^ (k + 1)))
      rcases Nat.mod_two_eq_zero_or_one x with h | h
      · rcases Nat.mod_two_eq_zero_or_one (x ||| y * 2 ^ (k + 1)) with h2 | h2
        · omega
        · rcases hmp h2 with h3 | h3
          · omega
          · omega
      · have h3 := hmpr (Or.inl h)
        omega
    have hx2 : x / 2 < 2 ^ k := by omega
    have hih := ih (x / 2) y hx2
    have hsplit : x ||| y * 2 ^ (k + 1)
        = 2 * ((x ||| y * 2 ^ (k + 1)) / 2) + (x ||| y * 2 ^ (k + 1)) % 2 := by
      omega
    rw [hsplit, hdiv, hmod, hih, h21]
    omega

/-! ## C1 — state after `loadProgram`

The spec claims `loadProgram` re-initialises registers and memory to the
construction state.  In the source, `SimpleRISCV::loadProgram` clears only the
program, the label table and the PC; registers and memory keep their values.
The construction state after a load is only obtained through the host binding
`jsLoadProgram`, which assigns a freshly constructed emulator to the global
before loading. -/

/-- **C1, counterexample.**  Execute `ADDI x5, x0, 7` (so `x5 = 7`), then call
`loadProgram` on the same emulator with the well-formed program `ECALL`:
register `x5` still holds 7, not the construction value 0 the claim demands. -/
theorem C1_cex :
    regGet (loadProgram (afterStep (jsLoadProgram (str "ADDI x5, x0, 7"))) [str "ECALL"]) 5 = 7 ∧
    regGet (loadProgram (afterStep (jsLoadProgram (str "ADDI x5, x0, 7"))) [str "ECALL"]) 5 ≠ 0 := by
  constructor
  · decide
  · decide

theorem initMachine_reg_eq :
    initMachine.reg = ((List.replicate 32 (0 : Int)).set 2 4096).set 3 2048 := by
  unfold initMachine
  norm_num

theorem initMachine_memory_eq : initMachine.memory = List.replicate 4096 0 := rfl

/-- **C1, amended.**  `loadProgram` replaces program, label table and PC (the
PC becomes 0) but leaves registers and memory exactly as they were; the
construction state (`pc = 0`, `sp = 4096`, `gp = 2048`, all other registers 0,
memory all zero) holds after a load only via the host binding `jsLoadProgram`,
which constructs a fresh emulator before loading. -/
theorem C1_amended (m : Machine) (lines : List Str) (src : Str) (i a : Nat) :
    (loadProgram m lines).reg = m.reg ∧
    (loadProgram m lines).memory = m.memory ∧
    (loadProgram m lines).pc = 0 ∧
    (jsLoadProgram src).pc = 0 ∧
    regGet (jsLoadProgram src) i = (if i = 2 then 4096 else if i = 3 then 2048 else 0) ∧
    (jsLoadProgram src).memory.getD a 0 = 0 := by
  refine ⟨rfl, rfl, rfl, rfl, ?_, ?_⟩
  · show initMachine.reg.getD i 0 = _
    rw [initMachine_reg_eq]
    by_cases h2 : i = 2
    · subst h2
      rw [getD_set_ne _ _ _ _ _ (by omega), getD_set_self _ _ _ _ (by simp)]
      norm_num
    · by_cases h3 : i = 3
      · subst h3
        rw [getD_set_self _ _ _ _ (by simp)]
        simp [h2]
      · rw [getD_set_ne _ _ _ _ _ (by omega), getD_set_ne _ _ _ _ _ (by omega)]
        simp only [if_neg h2, if_neg h3]
        exact getD_replicate 32 i 0
  · show initMachine.memory.getD a 0 = 0
    rw [initMachine_memory_eq]
    exact getD_replicate 4096 a 0

/-! ## C2 / C3 — register-token resolution and register-file bounds

`regNum` applies no range check to `xN` tokens: `parseNumber` catches its own
parse failures internally, so the `catch` in `regNum` is dead code and the
parsed value is returned as-is.  `x32` resolves to 32 and `x-1` to `-1`, which
are then used directly as `reg[...]` indices — an out-of-bounds access on the
32-entry register file. -/

/-- **C3.**  Evaluation of `regNum` at the failing inputs: the out-of-range
token `x32` yields 32 (not 0 as specified), `x-1` yields `-1`; only the
malformed (non-numeric) remainder case, e.g. `xfoo`, yields 0. -/
theorem C3_regNum_eval :
    regNum (str "x32") = 32 ∧ ¬ regNum (str "x32") ≤ 31 ∧
    regNum (str "x-1") = -1 ∧ regNum (str "xfoo") = 0 ∧ regNum (str "x31") = 31 := by
  refine ⟨by decide, by decide, by decide, by decide, by decide⟩

/-- **C2.**  Loading the single ill-formed line `ADD x32, x0, x0` and stepping
reaches an out-of-bounds register-file write (`reg[32]` on the 32-entry file):
the error branch of the total indexing in the embedding is reached, i.e. the
C++ performs undefined behaviour instead of staying in bounds. -/
theorem C2_step_out_of_bounds :
    step (loadProgram initMachine [str "ADD x32, x0, x0"]) = StepResult.ub := by
  decide

/-! ## C4 — malformed memory operands throw out of `step`

`parseMem` throws `runtime_error` when a parenthesis is missing, and neither
`step` nor the host binding catches it: the exception escapes to the embedder,
so problems do *not* surface only through the boolean return value. -/

/-- **C4, counterexample.**  `LW x5, 0` (no parentheses) makes `step` propagate
the `parseMem` exception to the embedder; the state at the throw point has only
the `reg[0] = 0` enforcement applied. -/
theorem C4_cex :
    step (loadProgram initMachine [str "LW x5, 0"]) =
      StepResult.thrown (setReg0 (loadProgram initMachine [str "LW x5, 0"])) := by
  rfl

/-! ## C9 — `SW`/`LW` round trip and little-endian layout -/

theorem validAddrByte_true {m : Machine} {addr : Int}
    (h1 : 0 ≤ addr) (h2 : addr < (m.memory.length : Int)) : validAddrByte m addr = true :=
  decide_eq_true ⟨h1, h2⟩

/-- **C9.**  Storing a 32-bit value `v` with `store32` at an in-bounds
word-aligned address and reloading with `load32` yields `v`; the byte at `a`
is the least-significant byte of `v` and the byte at `a + 3` the
most-significant byte (little-endian layout). -/
theorem C9_store32_load32 (m : Machine) (a : Int) (v : Nat)
    (hv : v < 4294967296) (ha0 : 0 ≤ a) (ha : a + 4 ≤ (m.memory.length : Int))
    (halign : a.tmod 4 = 0) :
    load32 (store32 m a v) a = v ∧
    (store32 m a v).memory.getD a.toNat 0 = v % 256 ∧
    (store32 m a v).memory.getD (a.toNat + 1) 0 = v / 256 % 256 ∧
    (store32 m a v).memory.getD (a.toNat + 2) 0 = v / 65536 % 256 ∧
    (store32 m a v).memory.getD (a.toNat + 3) 0 = v / 16777216 := by
  have hlen : a.toNat + 4 ≤ m.memory.length := by omega
  have hva : validAddrByte m a = true := validAddrByte_true ha0 (by omega)
  have hva3 : validAddrByte m (a + 3) = true := validAddrByte_true (by omega) (by omega)
  have ht1 : (a + 1).toNat = a.toNat + 1 := by omega
  have ht2 : (a + 2).toNat = a.toNat + 2 := by omega
  have ht3 : (a + 3).toNat = a.toNat + 3 := by omega
  have hb0 : v &&& 255 = v % 256 := by
    have h : (255 : Nat) = 2 ^ 8 - 1 := by norm_num
    rw [h, Nat.and_pow_two_sub_one_eq_mod]
  have hb1 : (v >>> 8) &&& 255 = v / 256 % 256 := by
    have h : (255 : Nat) = 2 ^ 8 - 1 := by norm_num
    rw [h, Nat.and_pow_two_sub_one_eq_mod, Nat.shiftRight_eq_div_pow]
  have hb2 : (v >>> 16) &&& 255 = v / 65536 % 256 := by
    have h : (255 : Nat) = 2 ^ 8 - 1 := by norm_num
    rw [h, Nat.and_pow_two_sub_one_eq_mod, Nat.shiftRight_eq_div_pow]
  have hb3 : (v >>> 24) &&& 255 = v / 16777216 := by
    have h : (255 : Nat) = 2 ^ 8 - 1 := by norm_num
    rw [h, Nat.and_pow_two_sub_one_eq_mod, Nat.shiftRight_eq_div_pow]
    have hlt : v / 2 ^ 24 < 256 := by omega
    rw [Nat.mod_eq_of_lt hlt]
    norm_num
  have hstore : (store32 m a v).memory
      = (((m.memory.set a.toNat (v &&& 255)).set
          (a + 1).toNat ((v >>> 8) &&& 255)).set
          (a + 2).toNat ((v >>> 16) &&& 255)).set
          (a + 3).toNat ((v >>> 24) &&& 255) := by
    unfold store32
    rw [if_pos ⟨hva, hva3⟩]
  have hmemlen : (store32 m a v).memory.length = m.memory.length := by
    rw [hstore]
    simp
  have hgd0 : (store32 m a v).memory.getD a.toNat 0 = v % 256 := by
    rw [hstore, ht1, ht2, ht3]
    rw [getD_set_ne _ _ _ _ _ (by omega), getD_set_ne _ _ _ _ _ (by omega),
      getD_set_ne _ _ _ _ _ (by omega), getD_set_self _ _ _ _ (by omega), hb0]
  have hgd1 : (store32 m a v).memory.getD (a.toNat + 1) 0 = v / 256 % 256 := by
    rw [hstore, ht1, ht2, ht3]
    rw [getD_set_ne _ _ _ _ _ (by omega), getD_set_ne _ _ _ _ _ (by omega),
      getD_set_self _ _ _ _ (by simp; omega), hb1]
  have hgd2 : (store32 m a v).memory.getD (a.toNat + 2) 0 = v / 65536 % 256 := by
    rw [hstore, ht1, ht2, ht3]
    rw [getD_set_ne _ _ _ _ _ (by omega),
      getD_set_self _ _ _ _ (by simp; omega), hb2]
  have hgd3 : (store32 m a v).memory.getD (a.toNat + 3) 0 = v / 16777216 := by
    rw [hstore, ht1, ht2, ht3]
    rw [getD_set_self _ _ _ _ (by simp; omega), hb3]
  refine ⟨?_, hgd0, hgd1, hgd2, hgd3⟩
  have hva' : validAddrByte (store32 m a v) a = true :=
    validAddrByte_true ha0 (by rw [hmemlen]; omega)
  have hva3' : validAddrByte (store32 m a v) (a + 3) = true :=
    validAddrByte_true (by omega) (by rw [hmemlen]; omega)
  unfold load32
  rw [if_pos ⟨hva', hva3'⟩, ht1, ht2, ht3, hgd0, hgd1, hgd2, hgd3]
  rw [Nat.shiftLeft_eq, Nat.shiftLeft_eq, Nat.shiftLeft_eq]
  rw [lor_eq_add_of_lt 8 _ _ (by omega)]
  rw [lor_eq_add_of_lt 16 _ _ (by omega)]
  rw [lor_eq_add_of_lt 24 _ _ (by omega)]
  omega

/-- A small emulator state (64 memory bytes) used to instantiate general
memory theorems on concrete inputs. -/
def smallMachine : Machine :=
  { reg := ((List.replicate 32 (0 : Int)).set 2 64).set 3 32
    memory := List.replicate 64 0
    labels := []
    program := []
    pc := 0 }

/-- **C9, witness.**  The round trip at `a = 8`, `v = 0x12345678` on a concrete
machine: byte 8 becomes `0x78` and byte 11 becomes `0x12`. -/
theorem C9_witness :
    load32 (store32 smallMachine 8 305419896) 8 = 305419896 ∧
    (store32 smallMachine 8 305419896).memory.getD 8 0 = 120 ∧
    (store32 smallMachine 8 305419896).memory.getD 11 0 = 18 := by
  have h := C9_store32_load32 smallMachine 8 305419896 (by decide) (by decide)
    (by decide) (by decide)
  exact ⟨h.1, by rw [show ((8 : Int).toNat) = 8 from rfl] at h; exact h.2.1, by
    rw [show ((8 : Int).toNat) = 8 from rfl] at h
    have h4 := h.2.2.2.2
    simpa using h4⟩

/-! ## C6 — the `x0 = 0` invariant -/

/-- Register 0 reads as 0 in the machine carried by a dispatch outcome. -/
def resX0 : ExecRes → Prop
  | .ok m => regGet m 0 = 0
  | .ret _ m => regGet m 0 = 0
  | .thrown m => regGet m 0 = 0
  | .ub => True

/-- Register 0 reads as 0 in the machine carried by a step outcome. -/
def stepX0 : StepResult → Prop
  | .ok _ m => regGet m 0 = 0
  | .thrown m => regGet m 0 = 0
  | .ub => True

theorem regGet_setReg0_zero (m : Machine) : regGet (setReg0 m) 0 = 0 := by
  unfold regGet setReg0
  cases m.reg <;> rfl

theorem regGet_setReg0_of_ne (m : Machine) (i : Nat) (h : i ≠ 0) :
    regGet (setReg0 m) i = regGet m i := by
  unfold regGet setReg0
  exact getD_set_ne _ _ _ _ _ (fun hh => h hh.symm)

theorem regGet_setReg0 (m : Machine) (i : Nat) (h0 : regGet m 0 = 0) :
    regGet (setReg0 m) i = regGet m i := by
  by_cases hi : i = 0
  · subst hi
    rw [regGet_setReg0_zero, h0]
  · exact regGet_setReg0_of_ne m i hi

theorem regGet_updatePC (m : Machine) (p : Int) (i : Nat) :
    regGet { m with pc := p } i = regGet m i := rfl

theorem resX0_ret_updatePC {m : Machine} {c : Bool} {p : Int} (h : regGet m 0 = 0) :
    resX0 (.ret c { m with pc := p }) := by
  show regGet { m with pc := p } 0 = 0
  rw [regGet_updatePC]
  exact h

theorem withArg_X0 {ins : Instruction} {i : Nat} {k : Str → ExecRes}
    (hk : ∀ a, resX0 (k a)) : resX0 (withArg ins i k) := by
  unfold withArg
  cases ins.args[i]? with
  | none => trivial
  | some a => exact hk a

theorem withReg_X0 {m : Machine} {i : Int} {k : Int → ExecRes}
    (hk : ∀ v, resX0 (k v)) : resX0 (withReg m i k) := by
  unfold withReg
  split_ifs with h
  · exact hk _
  · trivial

theorem writeReg_X0 {m : Machine} {rd v : Int} {k : Machine → ExecRes}
    (h0 : regGet m 0 = 0) (hk : ∀ m2, regGet m2 0 = 0 → resX0 (k m2)) :
    resX0 (writeReg m rd v k) := by
  unfold writeReg
  split_ifs with h1 h2
  · exact hk m h0
  · apply hk
    show (m.reg.set rd.toNat v).getD 0 0 = 0
    rw [getD_set_ne _ _ _ _ _ (by omega)]
    exact h0
  · trivial

theorem regGet_store8 (m : Machine) (addr : Int) (v : Nat) (i : Nat) :
    regGet (store8 m addr v) i = regGet m i := by
  unfold store8
  split_ifs <;> rfl

theorem regGet_store16 (m : Machine) (addr : Int) (v : Nat) (i : Nat) :
    regGet (store16 m addr v) i = regGet m i := by
  unfold store16
  split_ifs <;> rfl

theorem regGet_store32 (m : Machine) (addr : Int) (v : Nat) (i : Nat) :
    regGet (store32 m addr v) i = regGet m i := by
  unfold store32
  split_ifs <;> rfl

theorem alu3_X0 {m : Machine} {ins : Instruction} {fn : Int → Int → Int}
    (h0 : regGet m 0 = 0) : resX0 (alu3 m ins fn) := by
  unfold alu3
  apply withArg_X0
  intro a0
  apply withArg_X0
  intro a1
  apply withArg_X0
  intro a2
  apply withReg_X0
  intro v1
  apply withReg_X0
  intro v2
  exact writeReg_X0 h0 (fun m2 h => h)

theorem aluI_X0 {m : Machine} {ins : Instruction} {fn : Int → Int → Int}
    (h0 : regGet m 0 = 0) : resX0 (aluI m ins fn) := by
  unfold aluI
  apply withArg_X0
  intro a0
  apply withArg_X0
  intro a1
  apply withArg_X0
  intro a2
  apply withReg_X0
  intro v1
  exact writeReg_X0 h0 (fun m2 h => h)

theorem execLoad_X0 {m : Machine} {ins : Instruction}
    (h0 : regGet m 0 = 0) : resX0 (execLoad m ins) := by
  simp only [execLoad]
  apply withArg_X0
  intro a0
  apply withArg_X0
  intro a1
  cases hpm : parseMem a1 with
  | none => exact h0
  | some p =>
    obtain ⟨imm0, rs1⟩ := p
    apply withReg_X0
    intro v1
    split_ifs <;>
      first
        | exact writeReg_X0 h0 (fun m2 h => h)
        | exact h0

theorem execStore_X0 {m : Machine} {ins : Instruction}
    (h0 : regGet m 0 = 0) : resX0 (execStore m ins) := by
  simp only [execStore]
  apply withArg_X0
  intro a0
  apply withArg_X0
  intro a1
  cases hpm : parseMem a1 with
  | none => exact h0
  | some p =>
    obtain ⟨imm0, rs1⟩ := p
    apply withReg_X0
    intro v1
    split_ifs <;>
      first
        | exact h0
        | (apply withReg_X0
           intro v2
           show regGet (_ : Machine) 0 = 0
           first
             | rw [regGet_store8]; exact h0
             | rw [regGet_store16]; exact h0
             | rw [regGet_store32]; exact h0)

theorem execBranch_X0 {m : Machine} {ins : Instruction}
    (h0 : regGet m 0 = 0) : resX0 (execBranch m ins) := by
  simp only [execBranch]
  apply withArg_X0
  intro a0
  apply withArg_X0
  intro a1
  apply withArg_X0
  intro t
  apply withReg_X0
  intro v1
  apply withReg_X0
  intro v2
  split_ifs <;> exact h0

theorem execLA_X0 {m : Machine} {ins : Instruction}
    (h0 : regGet m 0 = 0) : resX0 (execLA m ins) := by
  unfold execLA
  apply withArg_X0
  intro a0
  apply withArg_X0
  intro label
  split_ifs <;>
    first
      | exact writeReg_X0 h0 (fun m2 h2 => h2)
      | exact h0

theorem execJAL_X0 {m : Machine} {ins : Instruction}
    (h0 : regGet m 0 = 0) : resX0 (execJAL m ins) := by
  unfold execJAL
  apply withArg_X0
  intro a0
  apply withArg_X0
  intro label
  apply writeReg_X0 h0
  intro m2 h2
  split_ifs with h
  · exact h2
  · exact h2

theorem execJALR_X0 {m : Machine} {ins : Instruction}
    (h0 : regGet m 0 = 0) : resX0 (execJALR m ins) := by
  unfold execJALR
  apply withArg_X0
  intro a0
  apply withArg_X0
  intro a1
  cases hpm : parseMem a1 with
  | none => exact h0
  | some p =>
    obtain ⟨imm0, rs1⟩ := p
    apply writeReg_X0 h0
    intro m2 h2
    apply withReg_X0
    intro v1
    exact resX0_ret_updatePC h2

theorem execLUI_X0 {m : Machine} {ins : Instruction}
    (h0 : regGet m 0 = 0) : resX0 (execLUI m ins) := by
  unfold execLUI
  apply withArg_X0
  intro a0
  apply withArg_X0
  intro a1
  exact writeReg_X0 h0 (fun m2 h2 => h2)

theorem execAUIPC_X0 {m : Machine} {ins : Instruction}
    (h0 : regGet m 0 = 0) : resX0 (execAUIPC m ins) := by
  unfold execAUIPC
  apply withArg_X0
  intro a0
  apply withArg_X0
  intro a1
  exact writeReg_X0 h0 (fun m2 h2 => h2)

theorem resX0_ite (c : Prop) [Decidable c] {a b : ExecRes}
    (ha : resX0 a) (hb : resX0 b) : resX0 (if c then a else b) := by
  split_ifs <;> assumption

set_option maxHeartbeats 1000000 in
theorem execInst_X0 {m : Machine} {ins : Instruction}
    (h0 : regGet m 0 = 0) : resX0 (execInst m ins) := by
  unfold execInst
  repeat' apply resX0_ite
  all_goals
    first
      | exact execLA_X0 h0
      | exact alu3_X0 h0
      | exact aluI_X0 h0
      | exact execLoad_X0 h0
      | exact execStore_X0 h0
      | exact execBranch_X0 h0
      | exact execJAL_X0 h0
      | exact execJALR_X0 h0
      | exact execLUI_X0 h0
      | exact execAUIPC_X0 h0
      | exact h0

/-- **C6.**  On every defined exit path of `step` — arithmetic, loads, stores,
taken branches, jumps, halts, and even the propagated `parseMem` exception —
register `x0` of the resulting machine reads as 0, and a `writeReg` directed
at register 0 is discarded, leaving the machine untouched. -/
theorem C6_x0_invariant :
    (∀ m : Machine, stepX0 (step m)) ∧
    (∀ (m : Machine) (v : Int) (k : Machine → ExecRes), writeReg m 0 v k = k m) := by
  constructor
  · intro m
    unfold step
    split_ifs with h
    · exact regGet_setReg0_zero m
    · have hx := @execInst_X0 (setReg0 m)
        (m.program.getD (m.pc.tdiv 4).toNat default)
        (regGet_setReg0_zero m)
      cases hres : execInst (setReg0 m)
          (m.program.getD (m.pc.tdiv 4).toNat default) with
      | ok m2 =>
        rw [hres] at hx
        show regGet (setReg0 m2) 0 = 0
        exact regGet_setReg0_zero m2
      | ret c m2 =>
        rw [hres] at hx
        exact hx
      | thrown m2 =>
        rw [hres] at hx
        exact hx
      | ub => trivial
  · intro m v k
    unfold writeReg
    rw [if_pos rfl]

/-! ## C7 -- misaligned memory accesses abort the step -/

theorem step_eq_of_fetch (m : Machine) (ins : Instruction)
    (hpc : 0 ≤ m.pc.tdiv 4 ∧ m.pc.tdiv 4 < (m.program.length : Int))
    (hins : m.program.getD (m.pc.tdiv 4).toNat default = ins) :
    step m = (match execInst (setReg0 m) ins with
      | .ok m2 => .ok true { setReg0 m2 with pc := to32 (m2.pc + 4) }
      | .ret c m2 => .ok c m2
      | .thrown m2 => .thrown m2
      | .ub => .ub) := by
  have hcon : ¬ (m.pc.tdiv 4 < 0 ∨ (m.program.length : Int) ≤ m.pc.tdiv 4) := by
    omega
  unfold step
  rw [if_neg hcon, hins]

/-! Misalignment lemmas for the load/store families. -/

theorem execLoad_misaligned (m : Machine) (ins : Instruction) (a0 a1 : Str)
    (imm0 rs1 align : Int)
    (hargs0 : ins.args[0]? = some a0) (hargs1 : ins.args[1]? = some a1)
    (hpm : parseMem a1 = some (imm0, rs1))
    (hrs : 0 ≤ rs1 ∧ rs1 < (m.reg.length : Int))
    (hop : (ins.op = str "LH" ∨ ins.op = str "LHU") ∧ align = 2 ∨ ins.op = str "LW" ∧ align = 4)
    (hmis : ¬ checkAligned (to32 (m.reg.getD rs1.toNat 0 + signExtend12 imm0)) align = true) :
    execLoad m ins = .ret false m := by
  simp only [execLoad, withArg, withReg, hargs0, hargs1, hpm]
  rw [if_pos hrs]
  rcases hop with ⟨hlh | hlhu, ha⟩ | ⟨hlw, ha⟩ <;> subst ha
  · rw [hlh, if_neg (by decide : ¬ (str "LH" = str "LB")),
      if_neg (by decide : ¬ (str "LH" = str "LBU")),
      if_pos (rfl : str "LH" = str "LH"),
      if_neg (fun hc => hmis hc.1)]
  · rw [hlhu, if_neg (by decide : ¬ (str "LHU" = str "LB")),
      if_neg (by decide : ¬ (str "LHU" = str "LBU")),
      if_neg (by decide : ¬ (str "LHU" = str "LH")),
      if_pos (rfl : str "LHU" = str "LHU"),
      if_neg (fun hc => hmis hc.1)]
  · rw [hlw, if_neg (by decide : ¬ (str "LW" = str "LB")),
      if_neg (by decide : ¬ (str "LW" = str "LBU")),
      if_neg (by decide : ¬ (str "LW" = str "LH")),
      if_neg (by decide : ¬ (str "LW" = str "LHU")),
      if_neg (fun hc => hmis hc.1)]

theorem execStore_misaligned (m : Machine) (ins : Instruction) (a0 a1 : Str)
    (imm0 rs1 align : Int)
    (hargs0 : ins.args[0]? = some a0) (hargs1 : ins.args[1]? = some a1)
    (hpm : parseMem a1 = some (imm0, rs1))
    (hrs : 0 ≤ rs1 ∧ rs1 < (m.reg.length : Int))
    (hop : ins.op = str "SH" ∧ align = 2 ∨ ins.op = str "SW" ∧ align = 4)
    (hmis : ¬ checkAligned (to32 (m.reg.getD rs1.toNat 0 + signExtend12 imm0)) align = true) :
    execStore m ins = .ret false m := by
  simp only [execStore, withArg, withReg, hargs0, hargs1, hpm]
  rw [if_pos hrs]
  rcases hop with ⟨hsh, ha⟩ | ⟨hsw, ha⟩ <;> subst ha
  · rw [hsh, if_neg (by decide : ¬ (str "SH" = str "SB")),
      if_pos (rfl : str "SH" = str "SH"),
      if_neg (fun hc => hmis hc.1)]
  · rw [hsw, if_neg (by decide : ¬ (str "SW" = str "SB")),
      if_neg (by decide : ¬ (str "SW" = str "SH")),
      if_neg (fun hc => hmis hc.1)]

theorem execInst_to_execLoad (m : Machine) (ins : Instruction)
    (h : ins.op = str "LB" ∨ ins.op = str "LBU" ∨ ins.op = str "LH" ∨
      ins.op = str "LHU" ∨ ins.op = str "LW") :
    execInst m ins = execLoad m ins := by
  rcases h with h | h | h | h | h <;> (unfold execInst; rw [h]; rfl)

theorem execInst_to_execStore (m : Machine) (ins : Instruction)
    (h : ins.op = str "SB" ∨ ins.op = str "SH" ∨ ins.op = str "SW") :
    execInst m ins = execStore m ins := by
  rcases h with h | h | h <;> (unfold execInst; rw [h]; rfl)

/-- **C7.**  A halfword (`LH`, `LHU`, `SH`) access at an address with
`addr % 2 != 0`, or a word (`LW`, `SW`) access with `addr % 4 != 0`, aborts
the step: `step` returns `false`, memory is unchanged, and every register --
including the destination register of a load -- observes the same value as
before (given the `x0 = 0` invariant of reachable states). -/
theorem C7_misaligned_aborts (m : Machine) (ins : Instruction) (a0 a1 : Str)
    (imm0 rs1 align : Int)
    (h0 : regGet m 0 = 0)
    (hpc : 0 ≤ m.pc.tdiv 4 ∧ m.pc.tdiv 4 < (m.program.length : Int))
    (hins : m.program.getD (m.pc.tdiv 4).toNat default = ins)
    (hargs0 : ins.args[0]? = some a0) (hargs1 : ins.args[1]? = some a1)
    (hpm : parseMem a1 = some (imm0, rs1))
    (hrs : 0 ≤ rs1 ∧ rs1 < (m.reg.length : Int))
    (hop : (ins.op = str "LH" ∨ ins.op = str "LHU" ∨ ins.op = str "SH") ∧ align = 2 ∨
           (ins.op = str "LW" ∨ ins.op = str "SW") ∧ align = 4)
    (hmis : ¬ (to32 (regGet m rs1.toNat + signExtend12 imm0)).tmod align = 0) :
    step m = .ok false (setReg0 m) ∧
    (setReg0 m).memory = m.memory ∧
    (∀ i : Nat, regGet (setReg0 m) i = regGet m i) := by
  refine ⟨?_, rfl, fun i => regGet_setReg0 m i h0⟩
  rw [step_eq_of_fetch m ins hpc hins]
  have hlen : ((setReg0 m).reg.length : Int) = (m.reg.length : Int) := by
    simp [setReg0]
  have hregv : (setReg0 m).reg.getD rs1.toNat 0 = regGet m rs1.toNat :=
    regGet_setReg0 m rs1.toNat h0
  have hrs' : 0 ≤ rs1 ∧ rs1 < ((setReg0 m).reg.length : Int) := by
    rw [hlen]
    exact hrs
  have hmis' : ∀ al : Int, al = align →
      ¬ checkAligned (to32 ((setReg0 m).reg.getD rs1.toNat 0 + signExtend12 imm0)) al = true := by
    intro al hal
    subst hal
    rw [hregv]
    unfold checkAligned
    simp only [decide_eq_true_eq]
    exact hmis
  rcases hop with ⟨hl | hl | hl, ha⟩ | ⟨hl | hl, ha⟩ <;> subst ha
  · rw [execInst_to_execLoad _ _ (Or.inr (Or.inr (Or.inl hl))),
      execLoad_misaligned (setReg0 m) ins a0 a1 imm0 rs1 2 hargs0 hargs1 hpm hrs'
        (Or.inl ⟨Or.inl hl, rfl⟩) (hmis' 2 rfl)]
  · rw [execInst_to_execLoad _ _ (Or.inr (Or.inr (Or.inr (Or.inl hl)))),
      execLoad_misaligned (setReg0 m) ins a0 a1 imm0 rs1 2 hargs0 hargs1 hpm hrs'
        (Or.inl ⟨Or.inr hl, rfl⟩) (hmis' 2 rfl)]
  · rw [execInst_to_execStore _ _ (Or.inr (Or.inl hl)),
      execStore_misaligned (setReg0 m) ins a0 a1 imm0 rs1 2 hargs0 hargs1 hpm hrs'
        (Or.inl ⟨hl, rfl⟩) (hmis' 2 rfl)]
  · rw [execInst_to_execLoad _ _ (Or.inr (Or.inr (Or.inr (Or.inr hl)))),
      execLoad_misaligned (setReg0 m) ins a0 a1 imm0 rs1 4 hargs0 hargs1 hpm hrs'
        (Or.inr ⟨hl, rfl⟩) (hmis' 4 rfl)]
  · rw [execInst_to_execStore _ _ (Or.inr (Or.inr hl)),
      execStore_misaligned (setReg0 m) ins a0 a1 imm0 rs1 4 hargs0 hargs1 hpm hrs'
        (Or.inr ⟨hl, rfl⟩) (hmis' 4 rfl)]

/-- The spec scenario: a single-line program `lh x5, 1(x0)`. -/
def exampleLH : Machine := loadProgram initMachine [str "lh x5, 1(x0)"]

/-- **C7, witness.**  `lh x5, 1(x0)` from the freshly loaded state returns
`false` and leaves all registers (in particular `x5 = 0`) and memory intact. -/
theorem C7_witness :
    step exampleLH = .ok false (setReg0 exampleLH) ∧
    (setReg0 exampleLH).memory = exampleLH.memory ∧
    (∀ i : Nat, regGet (setReg0 exampleLH) i = regGet exampleLH i) :=
  C7_misaligned_aborts exampleLH ⟨str "LH", [str "x5", str "1(x0)"], 0⟩
    (str "x5") (str "1(x0)") 1 0 2
    (by decide) (by decide) (by decide) (by decide) (by decide) (by decide)
    (by decide) (Or.inl ⟨Or.inl rfl, rfl⟩) (by decide)

/-! ## C10 -- JALR with `rd = rs1` links before jumping -/

theorem execInst_to_execJALR (m : Machine) (ins : Instruction)
    (h : ins.op = str "JALR") : execInst m ins = execJALR m ins := by
  unfold execInst
  rw [h]
  rfl

theorem execJALR_rd_eq_rs1 (m : Machine) (ins : Instruction) (a0 a1 : Str)
    (imm0 rs1 : Int)
    (hargs0 : ins.args[0]? = some a0) (hargs1 : ins.args[1]? = some a1)
    (hpm : parseMem a1 = some (imm0, rs1))
    (hrd : regNum a0 = rs1)
    (hrs : 0 < rs1 ∧ rs1 < (m.reg.length : Int)) :
    execJALR m ins = .ret true
      { m with reg := m.reg.set rs1.toNat (to32 (m.pc + 4)),
               pc := land32 (to32 (m.pc + 4 + signExtend12 imm0)) (-2) } := by
  simp only [execJALR, withArg, withReg, writeReg, hargs0, hargs1, hpm, hrd]
  rw [if_neg (by omega : ¬ rs1 = 0), if_pos (by omega : 0 ≤ rs1 ∧ rs1 < (m.reg.length : Int))]
  have hlen : (m.reg.set rs1.toNat (to32 (m.pc + 4))).length = m.reg.length := by simp
  rw [if_pos (by rw [hlen]; omega : 0 ≤ rs1 ∧ rs1 < ((m.reg.set rs1.toNat (to32 (m.pc + 4))).length : Int))]
  rw [getD_set_self _ _ _ _ (by omega), to32_add_left]

/-- **C10.**  For `JALR` with `rd` equal to `rs1`, `step` writes the link
value `pc + 4` into the register before reading it back to compute the jump
target, so the final `pc` is `((pc + 4) + signExtend12 imm) & ~1` -- a formula
independent of the value the register held before the instruction. -/
theorem C10_jalr_rd_eq_rs1 (m : Machine) (ins : Instruction) (a0 a1 : Str)
    (imm0 rs1 : Int)
    (hpc : 0 ≤ m.pc.tdiv 4 ∧ m.pc.tdiv 4 < (m.program.length : Int))
    (hins : m.program.getD (m.pc.tdiv 4).toNat default = ins)
    (hargs0 : ins.args[0]? = some a0) (hargs1 : ins.args[1]? = some a1)
    (hop : ins.op = str "JALR")
    (hpm : parseMem a1 = some (imm0, rs1))
    (hrd : regNum a0 = rs1)
    (hrs : 0 < rs1 ∧ rs1 < (m.reg.length : Int)) :
    ∃ m2 : Machine, step m = .ok true m2 ∧
      m2.pc = land32 (to32 (m.pc + 4 + signExtend12 imm0)) (-2) ∧
      regGet m2 rs1.toNat = to32 (m.pc + 4) := by
  have hlen2 : ((setReg0 m).reg.length : Int) = (m.reg.length : Int) := by simp [setReg0]
  refine ⟨Machine.mk ((setReg0 m).reg.set rs1.toNat (to32 (m.pc + 4))) m.memory m.labels
    m.program (land32 (to32 (m.pc + 4 + signExtend12 imm0)) (-2)), ?_, rfl, ?_⟩
  · rw [step_eq_of_fetch m ins hpc hins,
      execInst_to_execJALR _ _ hop,
      execJALR_rd_eq_rs1 (setReg0 m) ins a0 a1 imm0 rs1 hargs0 hargs1 hpm hrd
        (by rw [hlen2]; exact hrs)]
    rfl
  · show ((setReg0 m).reg.set rs1.toNat (to32 (m.pc + 4))).getD rs1.toNat 0 = _
    rw [getD_set_self _ _ _ _ (by
      have := hlen2
      omega)]

def jalrExample : Machine :=
  afterStep (loadProgram initMachine [str "addi x5, x0, 999", str "jalr x5, 8(x5)"])

/-- **C10, witness.**  `addi x5, x0, 999` then `jalr x5, 8(x5)`: despite
`x5 = 999` beforehand, the jump lands at `((4 + 4) + 8) & ~1 = 16`. -/
theorem C10_witness :
    ∃ m2 : Machine, step jalrExample = .ok true m2 ∧
      m2.pc = land32 (to32 (jalrExample.pc + 4 + signExtend12 8)) (-2) ∧
      regGet m2 (5 : Int).toNat = to32 (jalrExample.pc + 4) :=
  C10_jalr_rd_eq_rs1 jalrExample ⟨str "JALR", [str "x5", str "8(x5)"], 1⟩
    (str "x5") (str "8(x5)") 8 5
    (by decide) (by decide) (by decide) (by decide) rfl (by decide) (by decide) (by decide)

/-! Lemmas: a malformed memory operand makes the dispatch throw. -/

theorem execLoad_thrown (m : Machine) (ins : Instruction) (a0 a1 : Str)
    (hargs0 : ins.args[0]? = some a0) (hargs1 : ins.args[1]? = some a1)
    (hpm : parseMem a1 = none) : execLoad m ins = .thrown m := by
  simp only [execLoad, withArg, hargs0, hargs1, hpm]

theorem execStore_thrown (m : Machine) (ins : Instruction) (a0 a1 : Str)
    (hargs0 : ins.args[0]? = some a0) (hargs1 : ins.args[1]? = some a1)
    (hpm : parseMem a1 = none) : execStore m ins = .thrown m := by
  simp only [execStore, withArg, hargs0, hargs1, hpm]

theorem execJALR_thrown (m : Machine) (ins : Instruction) (a0 a1 : Str)
    (hargs0 : ins.args[0]? = some a0) (hargs1 : ins.args[1]? = some a1)
    (hpm : parseMem a1 = none) : execJALR m ins = .thrown m := by
  simp only [execJALR, withArg, hargs0, hargs1, hpm]

/-- **C4, amended.**  A load, store, or `JALR` whose memory operand lacks a
parenthesis makes `parseMem` throw; the exception propagates out of `step`
uncaught (no diagnostic, no boolean return): the embedder sees a raised
exception, with only the `reg[0] = 0` enforcement applied to the state. -/
theorem C4_amended (m : Machine) (ins : Instruction) (a0 a1 : Str)
    (hpc : 0 ≤ m.pc.tdiv 4 ∧ m.pc.tdiv 4 < (m.program.length : Int))
    (hins : m.program.getD (m.pc.tdiv 4).toNat default = ins)
    (hargs0 : ins.args[0]? = some a0) (hargs1 : ins.args[1]? = some a1)
    (hpm : parseMem a1 = none)
    (hop : ins.op = str "LB" ∨ ins.op = str "LBU" ∨ ins.op = str "LH" ∨
      ins.op = str "LHU" ∨ ins.op = str "LW" ∨ ins.op = str "SB" ∨ ins.op = str "SH" ∨
      ins.op = str "SW" ∨ ins.op = str "JALR") :
    step m = .thrown (setReg0 m) := by
  rw [step_eq_of_fetch m ins hpc hins]
  rcases hop with h | h | h | h | h | h | h | h | h
  · rw [execInst_to_execLoad _ _ (Or.inl h),
      execLoad_thrown _ _ _ _ hargs0 hargs1 hpm]
  · rw [execInst_to_execLoad _ _ (Or.inr (Or.inl h)),
      execLoad_thrown _ _ _ _ hargs0 hargs1 hpm]
  · rw [execInst_to_execLoad _ _ (Or.inr (Or.inr (Or.inl h))),
      execLoad_thrown _ _ _ _ hargs0 hargs1 hpm]
  · rw [execInst_to_execLoad _ _ (Or.inr (Or.inr (Or.inr (Or.inl h)))),
      execLoad_thrown _ _ _ _ hargs0 hargs1 hpm]
  · rw [execInst_to_execLoad _ _ (Or.inr (Or.inr (Or.inr (Or.inr h)))),
      execLoad_thrown _ _ _ _ hargs0 hargs1 hpm]
  · rw [execInst_to_execStore _ _ (Or.inl h),
      execStore_thrown _ _ _ _ hargs0 hargs1 hpm]
  · rw [execInst_to_execStore _ _ (Or.inr (Or.inl h)),
      execStore_thrown _ _ _ _ hargs0 hargs1 hpm]
  · rw [execInst_to_execStore _ _ (Or.inr (Or.inr h)),
      execStore_thrown _ _ _ _ hargs0 hargs1 hpm]
  · rw [execInst_to_execJALR _ _ h,
      execJALR_thrown _ _ _ _ hargs0 hargs1 hpm]

def lwNoParen : Machine := loadProgram initMachine [str "LW x5, 0"]

/-- **C4, witness.**  The single-line program `LW x5, 0`. -/
theorem C4_witness : step lwNoParen = .thrown (setReg0 lwNoParen) :=
  C4_amended lwNoParen ⟨str "LW", [str "x5", str "0"], 0⟩ (str "x5") (str "0")
    (by decide) (by decide) (by decide) (by decide) (by decide)
    (Or.inr (Or.inr (Or.inr (Or.inr (Or.inl rfl)))))

/-! ### Decimal print/parse round-trip (`to_string` / `parseNumber`) -/

theorem digitChar_spec (d : Nat) (h : d < 10) :
    isDigitCpp (digitChar d) = true ∧ digitVal (digitChar d) = d ∧
    isSpaceCpp (digitChar d) = false ∧ isTrimChar (digitChar d) = false ∧
    digitChar d ≠ '-' ∧ digitChar d ≠ '+' ∧ digitChar d ≠ 'x' ∧ digitChar d ≠ 'X' := by
  interval_cases d <;> exact (by decide)

theorem natDigitsAux_mem : ∀ (fuel n : Nat), n < fuel →
    ∀ c ∈ natDigitsAux fuel n, ∃ d, d < 10 ∧ c = digitChar d := by
  intro fuel
  induction fuel with
  | zero => intro n hn; omega
  | succ fuel ih =>
    intro n hn c hc
    unfold natDigitsAux at hc
    split_ifs at hc with h10
    · rw [List.mem_singleton] at hc
      exact ⟨n, h10, hc⟩
    · rcases List.mem_append.mp hc with hc | hc
      · exact ih (n / 10) (by omega) c hc
      · rw [List.mem_singleton] at hc
        exact ⟨n % 10, by omega, hc⟩

theorem natDigitsAux_ne_nil (fuel n : Nat) : natDigitsAux (fuel + 1) n ≠ [] := by
  unfold natDigitsAux
  split_ifs with h10
  · exact List.cons_ne_nil _ _
  · intro hcon
    rcases List.append_eq_nil.mp hcon with ⟨_, h2⟩
    cases h2

theorem decValue_append_singleton (xs : Str) (c : Char) :
    decValue (xs ++ [c]) = decValue xs * 10 + digitVal c := by
  unfold decValue
  rw [List.foldl_append]
  rfl

theorem natDigitsAux_decValue : ∀ (fuel n : Nat), n < fuel →
    decValue (natDigitsAux fuel n) = n := by
  intro fuel
  induction fuel with
  | zero => intro n hn; omega
  | succ fuel ih =>
    intro n hn
    unfold natDigitsAux
    split_ifs with h10
    · show decValue ([] ++ [digitChar n]) = n
      rw [decValue_append_singleton]
      have := (digitChar_spec n h10).2.1
      simp only [decValue, List.foldl_nil]
      omega
    · rw [decValue_append_singleton, ih (n / 10) (by omega)]
      have := (digitChar_spec (n % 10) (by omega)).2.1
      omega

theorem dropWhile_eq_self_of_not {p : Char → Bool} : ∀ (s : Str), (∀ c ∈ s, p c = false) →
    s.dropWhile p = s := by
  intro s h
  cases s with
  | nil => rfl
  | cons c cs =>
    rw [List.dropWhile_cons, h c (by simp)]
    simp

theorem takeWhile_eq_self_of_all {p : Char → Bool} : ∀ (s : Str), (∀ c ∈ s, p c = true) →
    s.takeWhile p = s := by
  intro s
  induction s with
  | nil => intro _; rfl
  | cons c cs ih =>
    intro h
    rw [List.takeWhile_cons, h c (by simp)]
    simp only [if_pos]
    rw [ih (fun x hx => h x (by simp [hx]))]

theorem getD_default_or_mem {α : Type} : ∀ (l : List α) (i : Nat) (d : α),
    l.getD i d = d ∨ l.getD i d ∈ l
  | [], _, _ => Or.inl rfl
  | a :: l, 0, _ => Or.inr (by rw [List.getD_cons_zero]; exact List.mem_cons_self a l)
  | a :: l, i + 1, d => by
    rw [List.getD_cons_succ]
    rcases getD_default_or_mem l i d with h | h
    · exact Or.inl h
    · exact Or.inr (List.mem_cons_of_mem _ h)

theorem trim_eq_self_of_no_trim (s : Str) (h : ∀ c ∈ s, isTrimChar c = false) :
    trim s = s := by
  unfold trim
  rw [dropWhile_eq_self_of_not _ h,
    dropWhile_eq_self_of_not _ (fun c hc => h c (List.mem_reverse.mp hc)),
    List.reverse_reverse]

theorem stoll10_digits (n : Nat) (hn : (n : Int) ≤ 9223372036854775807) :
    stoll10 (natDigitsAux (n + 1) n) = some (n : Int) := by
  have hmem := natDigitsAux_mem (n + 1) n (by omega)
  have hnospace : ∀ c ∈ natDigitsAux (n + 1) n, isSpaceCpp c = false := by
    intro c hc
    obtain ⟨d, hd, rfl⟩ := hmem c hc
    exact (digitChar_spec d hd).2.2.1
  have halldig : ∀ c ∈ natDigitsAux (n + 1) n, isDigitCpp c = true := by
    intro c hc
    obtain ⟨d, hd, rfl⟩ := hmem c hc
    exact (digitChar_spec d hd).1
  have hne := natDigitsAux_ne_nil n n
  have hhead : ¬ (natDigitsAux (n + 1) n).getD 0 ' ' = '-' ∧
      ¬ (natDigitsAux (n + 1) n).getD 0 ' ' = '+' := by
    rcases getD_default_or_mem (natDigitsAux (n + 1) n) 0 ' ' with h | h
    · rw [h]
      exact ⟨by decide, by decide⟩
    · obtain ⟨d, hd, he⟩ := hmem _ h
      rw [he]
      exact ⟨(digitChar_spec d hd).2.2.2.2.1, (digitChar_spec d hd).2.2.2.2.2.1⟩
  have hor : ¬ ((natDigitsAux (n + 1) n).getD 0 ' ' = '-' ∨
      (natDigitsAux (n + 1) n).getD 0 ' ' = '+') := fun hc => hc.elim hhead.1 hhead.2
  simp only [stoll10]
  rw [dropWhile_eq_self_of_not _ hnospace, if_neg hhead.1, if_neg hor,
    takeWhile_eq_self_of_all _ halldig,
    natDigitsAux_decValue (n + 1) n (by omega),
    if_neg (by simpa using hne),
    if_pos (by constructor <;> omega)]
  simp

theorem stoll10_neg_digits (n : Nat) (hn : (n : Int) ≤ 9223372036854775808) :
    stoll10 ('-' :: natDigitsAux (n + 1) n) = some (-(n : Int)) := by
  have hmem := natDigitsAux_mem (n + 1) n (by omega)
  have halldig : ∀ c ∈ natDigitsAux (n + 1) n, isDigitCpp c = true := by
    intro c hc
    obtain ⟨d, hd, rfl⟩ := hmem c hc
    exact (digitChar_spec d hd).1
  have hne := natDigitsAux_ne_nil n n
  simp only [stoll10]
  rw [dropWhile_eq_self_of_not _ (by
    intro c hc
    rcases List.mem_cons.mp hc with hc | hc
    · subst hc
      decide
    · obtain ⟨d, hd, rfl⟩ := hmem c hc
      exact (digitChar_spec d hd).2.2.1)]
  have hgd : (('-' :: natDigitsAux (n + 1) n).getD 0 ' ') = '-' := rfl
  rw [hgd, if_pos rfl, if_pos (Or.inl rfl),
    show List.drop 1 ('-' :: natDigitsAux (n + 1) n) = natDigitsAux (n + 1) n from rfl,
    takeWhile_eq_self_of_all _ halldig,
    if_neg (by simpa using hne),
    natDigitsAux_decValue (n + 1) n (by omega),
    if_pos (by constructor <;> omega)]
  simp

theorem to_string_mem (v : Int) :
    ∀ c ∈ to_string v, c = '-' ∨ ∃ d, d < 10 ∧ c = digitChar d := by
  unfold to_string
  split_ifs with hv
  · intro c hc
    rcases List.mem_cons.mp hc with hc | hc
    · exact Or.inl hc
    · exact Or.inr (natDigitsAux_mem _ _ (by omega) c hc)
  · intro c hc
    exact Or.inr (natDigitsAux_mem _ _ (by omega) c hc)

theorem to_string_ne_nil (v : Int) : to_string v ≠ [] := by
  unfold to_string
  split_ifs with hv
  · simp
  · exact natDigitsAux_ne_nil _ _

theorem parseNumber_to_string (v : Int) (h1 : -2147483648 ≤ v) (h2 : v < 2147483648) :
    parseNumber (to_string v) = v := by
  have hmem := to_string_mem v
  have htrim : trim (to_string v) = to_string v := by
    apply trim_eq_self_of_no_trim
    intro c hc
    rcases hmem c hc with hc2 | ⟨d, hd, hc2⟩ <;> subst hc2
    · decide
    · exact (digitChar_spec d hd).2.2.2.1
  have hnotx : ∀ i : Nat, ¬ (to_string v).getD i ' ' = 'x' ∧ ¬ (to_string v).getD i ' ' = 'X' := by
    intro i
    rcases getD_default_or_mem (to_string v) i ' ' with h | h
    · rw [h]
      exact ⟨by decide, by decide⟩
    · rcases hmem _ h with h2 | ⟨d, hd, h2⟩ <;> rw [h2]
      · exact ⟨by decide, by decide⟩
      · exact ⟨(digitChar_spec d hd).2.2.2.2.2.2.1, (digitChar_spec d hd).2.2.2.2.2.2.2⟩
  simp only [parseNumber]
  rw [htrim,
    if_neg (by simpa using to_string_ne_nil v),
    if_neg (fun hc => (hc.2.2).elim (hnotx 1).1 (hnotx 1).2),
    if_neg (fun hc => (hc.2.2.2).elim (hnotx 2).1 (hnotx 2).2)]
  rcases Classical.em (v < 0) with hv | hv
  · have hts : to_string v = '-' :: natDigitsAux ((-v).toNat + 1) (-v).toNat := by
      unfold to_string
      rw [if_pos hv]
    rw [hts, stoll10_neg_digits _ (by omega)]
    show to32 (-((((-v).toNat : Nat) : Int))) = v
    rw [show ((((-v).toNat : Nat) : Int)) = -v by omega]
    rw [show (-(-v)) = v by ring]
    exact to32_eq_self h1 h2
  · have hts : to_string v = natDigitsAux (v.toNat + 1) v.toNat := by
      unfold to_string
      rw [if_neg hv]
    rw [hts, stoll10_digits _ (by omega)]
    show to32 ((v.toNat : Nat) : Int) = v
    rw [show (((v.toNat : Nat) : Int)) = v by omega]
    exact to32_eq_self h1 h2

/-! ### C8: the `LI` pseudo-instruction -/

/-! ## C8 — the LI pseudo-instruction expansion and its execution -/

/-- The spec's formula for the upper part of a split `LI`:
`(imm + 0x800) >> 12`, treating `imm` as unsigned 32-bit. -/
def LI_upper_spec (imm : Int) : Int := (imm % 4294967296 + 2048) / 4096

/-- The spec's formula for the lower part: `imm & 0xFFF`, sign-adjusted into
`[-2048, 2047]`. -/
def LI_lower_spec (imm : Int) : Int :=
  if 2048 ≤ imm % 4096 then imm % 4096 - 4096 else imm % 4096

theorem parseNumber_range (s : Str) :
    -2147483648 ≤ parseNumber s ∧ parseNumber s < 2147483648 := by
  simp only [parseNumber]
  split_ifs
  · exact ⟨by norm_num, by norm_num⟩
  · cases hst : stoll16 (trim s) with
    | none => exact ⟨by norm_num, by norm_num⟩
    | some v => exact to32_range v
  · cases hst : stoll16 ((trim s).drop 1) with
    | none => exact ⟨by norm_num, by norm_num⟩
    | some v => exact to32_range (-v)
  · cases hst : stoll10 (trim s) with
    | none => exact ⟨by norm_num, by norm_num⟩
    | some v => exact to32_range v

theorem and_2048_ne_zero_iff (x : Nat) : (x &&& 2048 ≠ 0) ↔ 2048 ≤ x % 4096 := by
  have h : (2048 : Nat) = 2 ^ 11 := by norm_num
  rw [h, Nat.and_two_pow, Nat.testBit_to_div_mod]
  have hb : ∀ b : Bool, (b.toNat * 2 ^ 11 ≠ 0 ↔ b = true) := by
    intro b
    cases b <;> simp
  rw [hb, decide_eq_true_eq]
  have h11 : (2 : Nat) ^ 11 = 2048 := by norm_num
  rw [h11]
  constructor <;> intro hh <;> omega

theorem LI_upper_code_eq (imm : Int) (h1 : -2147483648 ≤ imm) (h2 : imm < 2147483648)
    (h3 : ¬ (-2048 ≤ imm ∧ imm ≤ 2047)) :
    ((((toU32N imm + 2048) % 4294967296) >>> 12 : Nat) : Int) = LI_upper_spec imm := by
  rw [Nat.shiftRight_eq_div_pow]
  have h12 : (2 : Nat) ^ 12 = 4096 := by norm_num
  rw [h12]
  unfold toU32N LI_upper_spec
  omega

theorem LI_lower_code_eq (imm : Int) :
    (if (toU32N imm &&& 4095) &&& 2048 ≠ 0 then ((toU32N imm &&& 4095 : Nat) : Int) - 4096
     else ((toU32N imm &&& 4095 : Nat) : Int)) = LI_lower_spec imm := by
  have h4095 : toU32N imm &&& 4095 = toU32N imm % 4096 := by
    have h : (4095 : Nat) = 2 ^ 12 - 1 := by norm_num
    rw [h, Nat.and_pow_two_sub_one_eq_mod]
  rw [h4095]
  have hiff := and_2048_ne_zero_iff ((imm % 4294967296).toNat % 4096)
  unfold LI_lower_spec toU32N
  by_cases hc : ((imm % 4294967296).toNat % 4096) &&& 2048 ≠ 0
  · rw [if_pos hc, if_pos (by have := hiff.mp hc; omega)]
    omega
  · rw [if_neg hc, if_neg (by
      intro hge
      exact hc (hiff.mpr (by omega)))]
    omega

theorem expandPseudo_LI (rdTok immTok : Str) (sl : Int) :
    expandPseudo ⟨str "LI", [rdTok, immTok], sl⟩ =
      (if -2048 ≤ parseNumber immTok ∧ parseNumber immTok ≤ 2047 then
        [⟨str "ADDI", [rdTok, str "x0", to_string (parseNumber immTok)], sl⟩]
      else
        [⟨str "LUI", [rdTok, to_string (LI_upper_spec (parseNumber immTok))], sl⟩,
         ⟨str "ADDI", [rdTok, rdTok, to_string (LI_lower_spec (parseNumber immTok))], sl⟩]) := by
  simp only [expandPseudo, List.getD_cons_zero, List.getD_cons_succ]
  rw [if_neg (fun hc => absurd hc.1 (by decide)),
    if_pos (⟨by decide, rfl⟩ :
      (str "LI").map toUpperCpp = str "LI" ∧ ([rdTok, immTok] : List Str).length = 2)]
  split_ifs with h hbit
  · rfl
  · have hr := parseNumber_range immTok
    have hl := LI_lower_code_eq (parseNumber immTok)
    rw [if_pos hbit] at hl
    rw [show ((((toU32N (parseNumber immTok) + 2048) % 4294967296) >>> 12 : Nat) : Int)
        = LI_upper_spec (parseNumber immTok) from
      LI_upper_code_eq (parseNumber immTok) hr.1 hr.2 h]
    rw [hl]
  · have hr := parseNumber_range immTok
    have hl := LI_lower_code_eq (parseNumber immTok)
    rw [if_neg hbit] at hl
    rw [show ((((toU32N (parseNumber immTok) + 2048) % 4294967296) >>> 12 : Nat) : Int)
        = LI_upper_spec (parseNumber immTok) from
      LI_upper_code_eq (parseNumber immTok) hr.1 hr.2 h]
    rw [hl]

theorem execInst_to_aluI_ADDI (m : Machine) (ins : Instruction)
    (h : ins.op = str "ADDI") :
    execInst m ins = aluI m ins (fun a b => to32 (a + b)) := by
  unfold execInst
  rw [h]
  rfl

theorem execInst_to_execLUI (m : Machine) (ins : Instruction)
    (h : ins.op = str "LUI") : execInst m ins = execLUI m ins := by
  unfold execInst
  rw [h]
  rfl

theorem set0_getD0 (l : List Int) : (l.set 0 0).getD 0 0 = 0 := by
  cases l <;> rfl

theorem step_ADDI (m : Machine) (ins : Instruction) (a0 a1 a2 : Str)
    (hpc : 0 ≤ m.pc.tdiv 4 ∧ m.pc.tdiv 4 < (m.program.length : Int))
    (hins : m.program.getD (m.pc.tdiv 4).toNat default = ins)
    (hop : ins.op = str "ADDI") (hargs : ins.args = [a0, a1, a2])
    (hrd : ¬ regNum a0 = 0) (hrdb : 0 ≤ regNum a0 ∧ regNum a0 < (m.reg.length : Int))
    (hrs : 0 ≤ regNum a1 ∧ regNum a1 < (m.reg.length : Int)) :
    step m = .ok true (Machine.mk
      (((m.reg.set 0 0).set (regNum a0).toNat
        (to32 ((m.reg.set 0 0).getD (regNum a1).toNat 0 + signExtend12 (parseNumber a2)))).set 0 0)
      m.memory m.labels m.program (to32 (m.pc + 4))) := by
  rw [step_eq_of_fetch m ins hpc hins, execInst_to_aluI_ADDI _ _ hop]
  simp only [aluI, withArg, withReg, writeReg, hargs, List.getElem?_cons_zero,
    List.getElem?_cons_succ, setReg0, List.length_set]
  rw [if_pos hrs, if_neg hrd, if_pos hrdb]

theorem step_LUI (m : Machine) (ins : Instruction) (a0 a1 : Str)
    (hpc : 0 ≤ m.pc.tdiv 4 ∧ m.pc.tdiv 4 < (m.program.length : Int))
    (hins : m.program.getD (m.pc.tdiv 4).toNat default = ins)
    (hop : ins.op = str "LUI") (hargs : ins.args = [a0, a1])
    (hrd : ¬ regNum a0 = 0) (hrdb : 0 ≤ regNum a0 ∧ regNum a0 < (m.reg.length : Int)) :
    step m = .ok true (Machine.mk
      (((m.reg.set 0 0).set (regNum a0).toNat (shl32 (parseNumber a1) 12)).set 0 0)
      m.memory m.labels m.program (to32 (m.pc + 4))) := by
  rw [step_eq_of_fetch m ins hpc hins, execInst_to_execLUI _ _ hop]
  simp only [execLUI, withArg, writeReg, hargs, List.getElem?_cons_zero,
    List.getElem?_cons_succ, setReg0, List.length_set]
  rw [if_neg hrd, if_pos hrdb]

theorem LI_upper_spec_range (imm : Int) :
    0 ≤ LI_upper_spec imm ∧ LI_upper_spec imm < 2147483648 := by
  unfold LI_upper_spec
  omega

theorem LI_lower_spec_range (imm : Int) :
    -2048 ≤ LI_lower_spec imm ∧ LI_lower_spec imm ≤ 2047 := by
  unfold LI_lower_spec
  split_ifs <;> omega

theorem LI_split_arith (imm : Int) (h1 : -2147483648 ≤ imm) (h2 : imm < 2147483648) :
    to32 (shl32 (LI_upper_spec imm) 12 + LI_lower_spec imm) = imm := by
  unfold shl32
  rw [to32_add_left]
  have h12 : (((2 : Nat) ^ 12 : Nat) : Int) = 4096 := by norm_num
  rw [h12]
  unfold to32 LI_upper_spec LI_lower_spec
  split_ifs <;> omega

/-- **C8.**  The `LI rd, imm` pseudo-instruction expands exactly as the spec's
table prescribes: a single `ADDI rd, x0, imm` when the parsed immediate lies in
`[-2048, 2047]`, and otherwise `LUI rd, upper ; ADDI rd, rd, lower` with
`upper = (imm + 0x800) >> 12` over the unsigned 32-bit value and `lower` the
sign-adjusted low 12 bits; and executing the expansion from pc 0 leaves `rd`
holding the immediate as a 32-bit two's-complement value. -/
theorem C8_li_pseudo (rdTok immTok : Str) (sl : Int) (m : Machine) (rd : Nat)
    (hrd : regNum rdTok = (rd : Int)) (hrd0 : 0 < rd) (hrd32 : rd < 32)
    (hprog : m.program = expandPseudo ⟨str "LI", [rdTok, immTok], sl⟩)
    (hpc : m.pc = 0) (hlen : m.reg.length = 32) :
    expandPseudo ⟨str "LI", [rdTok, immTok], sl⟩ =
      (if -2048 ≤ parseNumber immTok ∧ parseNumber immTok ≤ 2047 then
        [⟨str "ADDI", [rdTok, str "x0", to_string (parseNumber immTok)], sl⟩]
      else
        [⟨str "LUI", [rdTok, to_string (LI_upper_spec (parseNumber immTok))], sl⟩,
         ⟨str "ADDI", [rdTok, rdTok, to_string (LI_lower_spec (parseNumber immTok))], sl⟩]) ∧
    ((-2048 ≤ parseNumber immTok ∧ parseNumber immTok ≤ 2047) →
      ∃ m1 : Machine, step m = .ok true m1 ∧ regGet m1 rd = parseNumber immTok) ∧
    (¬ (-2048 ≤ parseNumber immTok ∧ parseNumber immTok ≤ 2047) →
      ∃ m1 m2 : Machine, step m = .ok true m1 ∧ step m1 = .ok true m2 ∧
        regGet m2 rd = parseNumber immTok) := by
  have himmrange := parseNumber_range immTok
  have hrdne : ¬ regNum rdTok = 0 := by
    intro hc
    rw [hrd] at hc
    omega
  have hrdtoNat : (regNum rdTok).toNat = rd := by
    rw [hrd]
    omega
  have hrdb : 0 ≤ regNum rdTok ∧ regNum rdTok < (m.reg.length : Int) := by
    rw [hrd, hlen]
    constructor <;> omega
  have hx0 : regNum (str "x0") = 0 := by decide
  refine ⟨expandPseudo_LI rdTok immTok sl, ?_, ?_⟩
  · intro hin
    have hexp := expandPseudo_LI rdTok immTok sl
    rw [if_pos hin] at hexp
    have hprog1 : m.program =
        [⟨str "ADDI", [rdTok, str "x0", to_string (parseNumber immTok)], sl⟩] := by
      rw [hprog, hexp]
    have htd : m.pc.tdiv 4 = 0 := by
      rw [hpc]
      rfl
    have hpcb : 0 ≤ m.pc.tdiv 4 ∧ m.pc.tdiv 4 < (m.program.length : Int) := by
      rw [htd, hprog1]
      norm_num
    have hins : m.program.getD (m.pc.tdiv 4).toNat default =
        ⟨str "ADDI", [rdTok, str "x0", to_string (parseNumber immTok)], sl⟩ := by
      rw [htd, hprog1]
      rfl
    have hrs : 0 ≤ regNum (str "x0") ∧ regNum (str "x0") < (m.reg.length : Int) := by
      rw [hx0, hlen]
      norm_num
    have hstep := step_ADDI m _ rdTok (str "x0") (to_string (parseNumber immTok))
      hpcb hins rfl rfl hrdne hrdb hrs
    refine ⟨_, hstep, ?_⟩
    simp only [regGet]
    rw [hrdtoNat, hx0]
    rw [getD_set_ne _ _ _ _ _ (by omega),
      getD_set_self _ _ _ _ (by simp [hlen, hrd32])]
    show to32 ((m.reg.set 0 0).getD ((0 : Int)).toNat 0 +
      signExtend12 (parseNumber (to_string (parseNumber immTok)))) = _
    rw [show ((0 : Int)).toNat = 0 from rfl, set0_getD0,
      parseNumber_to_string _ himmrange.1 himmrange.2,
      signExtend12_eq_self hin.1 hin.2]
    rw [show (0 : Int) + parseNumber immTok = parseNumber immTok by ring]
    exact to32_eq_self (by omega) (by omega)
  · intro hnin
    have hexp := expandPseudo_LI rdTok immTok sl
    rw [if_neg hnin] at hexp
    have hprog2 : m.program =
        [⟨str "LUI", [rdTok, to_string (LI_upper_spec (parseNumber immTok))], sl⟩,
         ⟨str "ADDI", [rdTok, rdTok, to_string (LI_lower_spec (parseNumber immTok))], sl⟩] := by
      rw [hprog, hexp]
    have htd : m.pc.tdiv 4 = 0 := by
      rw [hpc]
      rfl
    have hpcb : 0 ≤ m.pc.tdiv 4 ∧ m.pc.tdiv 4 < (m.program.length : Int) := by
      rw [htd, hprog2]
      norm_num
    have hins : m.program.getD (m.pc.tdiv 4).toNat default =
        ⟨str "LUI", [rdTok, to_string (LI_upper_spec (parseNumber immTok))], sl⟩ := by
      rw [htd, hprog2]
      rfl
    have hstep1 := step_LUI m _ rdTok (to_string (LI_upper_spec (parseNumber immTok)))
      hpcb hins rfl rfl hrdne hrdb
    have hup := LI_upper_spec_range (parseNumber immTok)
    have hlo := LI_lower_spec_range (parseNumber immTok)
    have hrtu : parseNumber (to_string (LI_upper_spec (parseNumber immTok)))
        = LI_upper_spec (parseNumber immTok) :=
      parseNumber_to_string _ (by omega) (by omega)
    have hrtl : parseNumber (to_string (LI_lower_spec (parseNumber immTok)))
        = LI_lower_spec (parseNumber immTok) :=
      parseNumber_to_string _ (by omega) (by omega)
    have hm1pc : to32 (m.pc + 4) = 4 := by
      rw [hpc]
      rfl
    have hpct : (to32 (m.pc + 4)).tdiv 4 = 1 := by
      rw [hm1pc]
      rfl
    have hpcb2 : 0 ≤ (to32 (m.pc + 4)).tdiv 4 ∧
        (to32 (m.pc + 4)).tdiv 4 < (m.program.length : Int) := by
      rw [hpct, hprog2]
      norm_num
    have hins2 : m.program.getD ((to32 (m.pc + 4)).tdiv 4).toNat default =
        ⟨str "ADDI", [rdTok, rdTok, to_string (LI_lower_spec (parseNumber immTok))], sl⟩ := by
      rw [hpct, hprog2]
      rfl
    have hlen1 : (((m.reg.set 0 0).set (regNum rdTok).toNat
        (shl32 (parseNumber (to_string (LI_upper_spec (parseNumber immTok)))) 12)).set 0 0).length
        = 32 := by
      simp [hlen]
    have hrdb2 : 0 ≤ regNum rdTok ∧ regNum rdTok <
        ((((m.reg.set 0 0).set (regNum rdTok).toNat
          (shl32 (parseNumber (to_string (LI_upper_spec (parseNumber immTok)))) 12)).set 0 0).length : Int) := by
      rw [hlen1, hrd]
      constructor <;> omega
    have hstep2 := step_ADDI (Machine.mk
        (((m.reg.set 0 0).set (regNum rdTok).toNat
          (shl32 (parseNumber (to_string (LI_upper_spec (parseNumber immTok)))) 12)).set 0 0)
        m.memory m.labels m.program (to32 (m.pc + 4)))
        ⟨str "ADDI", [rdTok, rdTok, to_string (LI_lower_spec (parseNumber immTok))], sl⟩
        rdTok rdTok (to_string (LI_lower_spec (parseNumber immTok)))
        hpcb2 hins2 rfl rfl hrdne hrdb2 hrdb2
    refine ⟨_, _, hstep1, hstep2, ?_⟩
    simp only [regGet]
    rw [hrdtoNat]
    rw [getD_set_ne _ _ _ _ _ (by omega),
      getD_set_self _ _ _ _ (by simp [hlen, hrd32])]
    show to32 (((((m.reg.set 0 0).set rd
        (shl32 (parseNumber (to_string (LI_upper_spec (parseNumber immTok)))) 12)).set 0 0).set 0 0).getD
        rd 0 +
      signExtend12 (parseNumber (to_string (LI_lower_spec (parseNumber immTok))))) = _
    rw [getD_set_ne _ _ _ _ _ (by omega), getD_set_ne _ _ _ _ _ (by omega),
      getD_set_self _ _ _ _ (by simp [hlen, hrd32]),
      hrtu, hrtl, signExtend12_eq_self hlo.1 hlo.2]
    exact LI_split_arith (parseNumber immTok) himmrange.1 himmrange.2

/-- Machine loaded with the expansion of `LI x5, 2048` (the spec's boundary
example: just outside the single-`ADDI` range). -/
def c8wM : Machine :=
  { initMachine with program := expandPseudo ⟨str "LI", [str "x5", str "2048"], 0⟩ }

/-- **C8, witness.**  `LI x5, 2048` takes the `LUI`+`ADDI` expansion and two
steps leave exactly 2048 in x5. -/
theorem C8_witness :
    ∃ m1 m2 : Machine,
      step c8wM = .ok true m1 ∧ step m1 = .ok true m2 ∧ regGet m2 5 = 2048 := by
  have h := C8_li_pseudo (str "x5") (str "2048") 0 c8wM 5
    (by decide) (by decide) (by decide) rfl rfl rfl
  have h2 := h.2.2 (by decide)
  obtain ⟨m1, m2, h1, hs2, hv⟩ := h2
  refine ⟨m1, m2, h1, hs2, ?_⟩
  rw [hv]
  decide

/-! ### C5: `ADDI` with a grammar literal sign-extends the immediate -/

/-- The integer-literal grammar of spec section 4.1: an optional leading minus,
then either a nonempty run of decimal digits or a 0x/0X prefix followed by a
nonempty run of hex digits. -/
def isLit (s : Str) : Bool :=
  let b := if s.getD 0 ' ' = '-' then s.drop 1 else s
  (decide (b ≠ []) && b.all isDigitCpp) ||
  (decide (b.getD 0 ' ' = '0') &&
   (decide (b.getD 1 ' ' = 'x') || decide (b.getD 1 ' ' = 'X')) &&
   decide (b.drop 2 ≠ []) && (b.drop 2).all isHexDigitCpp)

/-- Characters that are inert for the loader: not whitespace, not trimmed,
and not one of the delimiters the line scanner reacts to. -/
def goodChar (c : Char) : Prop :=
  isSpaceCpp c = false ∧ isTrimChar c = false ∧ c ≠ '#' ∧ c ≠ ':' ∧ c ≠ ','

theorem goodChar_of_hex (c : Char) (h : isHexDigitCpp c = true) : goodChar c := by
  have hprop : ('0' ≤ c ∧ c ≤ '9') ∨ ('a' ≤ c ∧ c ≤ 'f') ∨ ('A' ≤ c ∧ c ≤ 'F') := by
    simpa [isHexDigitCpp] using h
  refine ⟨?_, ?_, ?_, ?_, ?_⟩
  · have hs : ¬ (c = ' ' ∨ c = '\t' ∨ c = '\n' ∨ c = '\x0b' ∨ c = '\x0c' ∨ c = '\r') := by
      rintro (rfl | rfl | rfl | rfl | rfl | rfl) <;> revert hprop <;> decide
    simpa [isSpaceCpp] using hs
  · have hs : ¬ (c = ' ' ∨ c = '\t') := by
      rintro (rfl | rfl) <;> revert hprop <;> decide
    simpa [isTrimChar] using hs
  · rintro rfl; revert hprop; decide
  · rintro rfl; revert hprop; decide
  · rintro rfl; revert hprop; decide

theorem goodChar_of_digit (c : Char) (h : isDigitCpp c = true) : goodChar c := by
  apply goodChar_of_hex
  have hprop : '0' ≤ c ∧ c ≤ '9' := by simpa [isDigitCpp] using h
  simp [isHexDigitCpp, hprop]

theorem isLit_elim (L : Str) (hL : isLit L = true) :
    L ≠ [] ∧ ∀ c ∈ L, goodChar c := by
  unfold isLit at hL
  simp only [Bool.or_eq_true, Bool.and_eq_true, decide_eq_true_eq,
    List.all_eq_true] at hL
  by_cases hneg : L.getD 0 ' ' = '-'
  · rw [if_pos hneg] at hL
    cases L with
    | nil => simp at hneg
    | cons c0 t =>
      have hc0 : c0 = '-' := by simpa using hneg
      subst hc0
      have htL : (('-' : Char) :: t).drop 1 = t := rfl
      rw [htL] at hL
      refine ⟨by simp, ?_⟩
      intro c hc
      rcases List.mem_cons.mp hc with rfl | hct
      · exact ⟨by decide, by decide, by decide, by decide, by decide⟩
      · rcases hL with ⟨_, hall⟩ | ⟨⟨⟨h0, hx⟩, h2⟩, hall⟩
        · exact goodChar_of_digit c (hall c hct)
        · cases t with
          | nil => simp at h0
          | cons b0 t1 =>
            cases t1 with
            | nil => rcases hx with hx | hx <;> simp at hx
            | cons b1 t2 =>
              have hb0 : b0 = '0' := by simpa using h0
              have hd2 : (b0 :: b1 :: t2).drop 2 = t2 := rfl
              rw [hd2] at hall
              rcases List.mem_cons.mp hct with rfl | hct1
              · subst hb0; exact ⟨by decide, by decide, by decide, by decide, by decide⟩
              · rcases List.mem_cons.mp hct1 with hce | hct2
                · have hb1 : b1 = 'x' ∨ b1 = 'X' := by simpa using hx
                  subst hce
                  rcases hb1 with rfl | rfl <;>
                    exact ⟨by decide, by decide, by decide, by decide, by decide⟩
                · exact goodChar_of_hex c (hall c hct2)
  · rw [if_neg hneg] at hL
    rcases hL with ⟨hne, hall⟩ | ⟨⟨⟨h0, hx⟩, h2⟩, hall⟩
    · refine ⟨hne, fun c hc => goodChar_of_digit c (hall c hc)⟩
    · cases L with
      | nil => simp at h0
      | cons b0 t1 =>
        cases t1 with
        | nil => rcases hx with hx | hx <;> simp at hx
        | cons b1 t2 =>
          have hb0 : b0 = '0' := by simpa using h0
          have hd2 : (b0 :: b1 :: t2).drop 2 = t2 := rfl
          rw [hd2] at hall
          refine ⟨by simp, ?_⟩
          intro c hc
          rcases List.mem_cons.mp hc with rfl | hct1
          · subst hb0; exact ⟨by decide, by decide, by decide, by decide, by decide⟩
          · rcases List.mem_cons.mp hct1 with hce | hct2
            · have hb1 : b1 = 'x' ∨ b1 = 'X' := by simpa using hx
              subst hce
              rcases hb1 with rfl | rfl <;>
                exact ⟨by decide, by decide, by decide, by decide, by decide⟩
            · exact goodChar_of_hex c (hall c hct2)

theorem findIdx_none {α : Type} (P : α → Bool) :
    ∀ (l : List α) (i : Nat), (∀ c ∈ l, P c = false) → List.findIdx? P l i = none
  | [], _, _ => rfl
  | a :: l, i, h => by
    show (if P a then some i else List.findIdx? P l (i + 1)) = none
    rw [if_neg (by simp [h a (List.mem_cons_self a l)]),
      findIdx_none P l (i + 1) (fun c hc => h c (List.mem_cons_of_mem a hc))]

theorem map_eq_self_of {α : Type} (f : α → α) :
    ∀ (l : List α), (∀ c ∈ l, f c = c) → l.map f = l
  | [], _ => rfl
  | a :: l, h => by
    rw [List.map_cons, h a (List.mem_cons_self a l),
      map_eq_self_of f l (fun c hc => h c (List.mem_cons_of_mem a hc))]

theorem splitWSAux_all_nonspace :
    ∀ (L acc : Str), (∀ c ∈ L, isSpaceCpp c = false) → ¬ (L = [] ∧ acc = []) →
      splitWSAux L acc = [acc.reverse ++ L]
  | [], acc, _, hne => by
    have hacc : ¬ acc = [] := fun h => hne ⟨rfl, h⟩
    show (if acc = [] then [] else [acc.reverse]) = _
    rw [if_neg hacc, List.append_nil]
  | c :: r, acc, h, _ => by
    show (if isSpaceCpp c then _ else splitWSAux r (c :: acc)) = _
    rw [if_neg (by simp [h c (List.mem_cons_self c r)]),
      splitWSAux_all_nonspace r (c :: acc)
        (fun x hx => h x (List.mem_cons_of_mem c hx)) (by simp),
      List.reverse_cons, List.append_assoc, List.singleton_append]

theorem trim_good (a : Char) (p L : Str) (ha : isTrimChar a = false)
    (hL : L ≠ []) (hall : ∀ c ∈ L, isTrimChar c = false) :
    trim (a :: p ++ L) = a :: p ++ L := by
  unfold trim
  rw [List.cons_append, List.dropWhile_cons, if_neg (by simp [ha])]
  obtain ⟨c, t, hct⟩ : ∃ c t, L.reverse = c :: t := by
    cases hr : L.reverse with
    | nil => exact absurd (by simpa using hr) hL
    | cons c t => exact ⟨c, t, rfl⟩
  have hc : isTrimChar c = false :=
    hall c (by rw [← List.mem_reverse, hct]; exact List.mem_cons_self c t)
  rw [← List.cons_append, List.reverse_append, hct, List.cons_append,
    List.dropWhile_cons, if_neg (by simp [hc]), ← List.cons_append, ← hct,
    ← List.reverse_append, List.reverse_reverse]

theorem trim_cons_space (s : Str) : trim (' ' :: s) = trim s := by
  unfold trim
  rw [List.dropWhile_cons, if_pos (by decide)]

theorem stripLabelsAux_none (fuel progLen : Nat) (labs : Labels) (line : Str)
    (h : line.findIdx? (· = ':') = none) :
    stripLabelsAux (fuel + 1) progLen labs line = (labs, line) := by
  rw [stripLabelsAux.eq_def]
  dsimp only
  rw [h]

theorem processLine_ADDI (L : Str) (hL : L ≠ []) (hgood : ∀ c ∈ L, goodChar c) :
    processLine 0 (str "ADDI x5, x0, " ++ L) [] [] =
      ([⟨str "ADDI", [str "x5", str "x0", L], ((0 : Nat) : Int)⟩], []) := by
  have htrimch : ∀ c ∈ L, isTrimChar c = false := fun c hc => (hgood c hc).2.1
  have htrim : trim (str "ADDI x5, x0, " ++ L) = str "ADDI x5, x0, " ++ L :=
    trim_good 'A' (str "DDI x5, x0, ") L (by decide) hL htrimch
  have hph : ∀ c ∈ str "ADDI x5, x0, ", (decide (c = '#')) = false := by decide
  have hpc2 : ∀ c ∈ str "ADDI x5, x0, ", (decide (c = ':')) = false := by decide
  have hfindH : (str "ADDI x5, x0, " ++ L).findIdx? (· = '#') = none := by
    apply findIdx_none
    intro c hc
    rcases List.mem_append.mp hc with h | h
    · exact hph c h
    · simp [(hgood c h).2.2.1]
  have hfindC : (str "ADDI x5, x0, " ++ L).findIdx? (· = ':') = none := by
    apply findIdx_none
    intro c hc
    rcases List.mem_append.mp hc with h | h
    · exact hpc2 c h
    · simp [(hgood c h).2.2.2.1]
  have hnil : ¬ (str "ADDI x5, x0, " ++ L) = [] := by
    rw [show str "ADDI x5, x0, " ++ L = 'A' :: (str "DDI x5, x0, " ++ L) from rfl]
    exact List.cons_ne_nil _ _
  have hcond1 : ¬ (str "ADDI x5, x0, " ++ L = [] ∨
      (str "ADDI x5, x0, " ++ L).getD 0 ' ' = '#') := by
    rintro (h | h)
    · exact hnil h
    · rw [show (str "ADDI x5, x0, " ++ L).getD 0 ' ' = 'A' from rfl] at h
      exact absurd h (by decide)
  have hstrip : stripLabelsAux ((str "ADDI x5, x0, " ++ L).length + 1) 0 []
      (str "ADDI x5, x0, " ++ L) = ([], str "ADDI x5, x0, " ++ L) :=
    stripLabelsAux_none _ 0 [] _ hfindC
  have hext : extractToken (str "ADDI x5, x0, " ++ L) = (str "ADDI", str " x5, x0, " ++ L) := rfl
  have hargt : trim (str " x5, x0, " ++ L) = str "x5, x0, " ++ L := by
    rw [show str " x5, x0, " ++ L = ' ' :: (str "x5, x0, " ++ L) from rfl, trim_cons_space]
    exact trim_good 'x' (str "5, x0, ") L (by decide) hL htrimch
  have hmap : (str "x5, x0, " ++ L).map (fun c => if c = ',' then ' ' else c)
      = str "x5  x0  " ++ L := by
    rw [List.map_append,
      show (str "x5, x0, ").map (fun c => if c = ',' then ' ' else c) = str "x5  x0  " from rfl,
      map_eq_self_of _ L (fun c hc => if_neg (hgood c hc).2.2.2.2)]
  have hsplit : splitWS (str "x5  x0  " ++ L) = [str "x5", str "x0", L] := by
    show splitWSAux (str "x5  x0  " ++ L) [] = _
    rw [show splitWSAux (str "x5  x0  " ++ L) [] = str "x5" :: str "x0" :: splitWSAux L [] from rfl,
      splitWSAux_all_nonspace L [] (fun c hc => (hgood c hc).1) (fun h => hL h.1)]
    rfl
  have hop : (str "ADDI").map toUpperCpp = str "ADDI" := rfl
  have hexp : expandPseudo ⟨str "ADDI", [str "x5", str "x0", L], ((0 : Nat) : Int)⟩
      = [⟨str "ADDI", [str "x5", str "x0", L], ((0 : Nat) : Int)⟩] := rfl
  simp only [processLine, htrim, if_neg hcond1, hfindH, List.length_nil, hstrip, hext,
    hargt, hmap, hsplit, hop, hexp, if_neg hnil, List.nil_append, List.map_cons, List.map_nil]

theorem loadProgram_ADDI (m : Machine) (L : Str) (hL : L ≠ [])
    (hgood : ∀ c ∈ L, goodChar c) :
    loadProgram m [str "ADDI x5, x0, " ++ L] =
      Machine.mk m.reg m.memory []
        [⟨str "ADDI", [str "x5", str "x0", L], ((0 : Nat) : Int)⟩] 0 := by
  simp only [loadProgram, processLines, processLine_ADDI L hL hgood]

/-- **C5 (amended).**  For every integer literal `L` of the section 4.1
grammar, loading and executing `ADDI x5, x0, L` leaves in x5 the immediate
sign-extended from its low 12 bits, `signExtend12 (parseNumber L)` - not, as
the claim states, the full literal value reinterpreted as signed 32-bit. -/
theorem C5_addi_sign_extends (L : Str) (hL : isLit L = true) :
    regGet (afterStep (loadProgram initMachine [str "ADDI x5, x0, " ++ L])) 5
      = signExtend12 (parseNumber L) := by
  obtain ⟨hne, hgood⟩ := isLit_elim L hL
  have hload := loadProgram_ADDI initMachine L hne hgood
  have hstep := step_ADDI (loadProgram initMachine [str "ADDI x5, x0, " ++ L])
      ⟨str "ADDI", [str "x5", str "x0", L], ((0 : Nat) : Int)⟩ (str "x5") (str "x0") L
      (by rw [hload]; exact ⟨le_refl 0, Int.zero_lt_one⟩)
      (by rw [hload]; rfl)
      rfl rfl (by decide)
      (by rw [hload]
          exact ⟨by decide, show regNum (str "x5") < ((initMachine.reg.length : Nat) : Int)
            from by decide⟩)
      (by rw [hload]
          exact ⟨by decide, show regNum (str "x0") < ((initMachine.reg.length : Nat) : Int)
            from by decide⟩)
  simp only [afterStep, hstep, regGet]
  rw [hload]
  show ((((initMachine.reg.set 0 0).set (regNum (str "x5")).toNat
      (to32 ((initMachine.reg.set 0 0).getD (regNum (str "x0")).toNat 0 +
        signExtend12 (parseNumber L)))).set 0 0)).getD 5 0
    = signExtend12 (parseNumber L)
  rw [show (regNum (str "x5")).toNat = 5 from by decide,
    getD_set_ne _ _ _ _ _ (by omega),
    getD_set_self _ _ _ _ (by decide),
    show (initMachine.reg.set 0 0).getD (regNum (str "x0")).toNat 0 = 0 from by decide,
    zero_add]
  exact to32_eq_self
    (by have := signExtend12_range (parseNumber L); omega)
    (by have := signExtend12_range (parseNumber L); omega)

/-- **C5, counterexample.**  The grammar literal `2048` parses to 2048, whose
signed-32 reinterpretation is 2048 itself, yet executing `ADDI x5, x0, 2048`
leaves -2048 in x5 (the immediate is sign-extended from 12 bits). -/
theorem C5_cex :
    isLit (str "2048") = true ∧
    parseNumber (str "2048") = 2048 ∧
    to32 2048 = 2048 ∧
    regGet (afterStep (loadProgram initMachine [str "ADDI x5, x0, " ++ str "2048"])) 5
      = -2048 := by
  refine ⟨by decide, by decide, by decide, ?_⟩
  decide

/-- **C5, witness.**  The amended statement at the literal `10`. -/
theorem C5_witness :
    isLit (str "10") = true ∧
    regGet (afterStep (loadProgram initMachine [str "ADDI x5, x0, " ++ str "10"])) 5
      = signExtend12 (parseNumber (str "10")) :=
  ⟨by decide, C5_addi_sign_extends (str "10") (by decide)⟩
